import Mathlib

/-!
Verification development for the `transformers` educational notebooks.

The notebook `0.attention.ipynb` implements, on top of a tensor library:
  * `ScaledDotProductAttention.forward`
  * `MultiHeadAttention.__init__` / `split_heads` / `forward`
  * `EncoderLayer.forward`
  * `TransformerEncoder.forward`
  * `TransformerClassifier.forward`

We embed the tensor computations shallowly: a floating-point tensor entry is
modelled as a real number, a matrix is a list of rows, a 3-D tensor
(batch, seq, feature) a list of matrices, a 4-D tensor (batch, heads, seq,
feature) a list of lists of matrices.  `float(-inf)` (produced by
`masked_fill`) is modelled by `none` in `Option ℝ`, with `exp(-inf) = 0`.
Shape errors raised by the tensor library's `matmul` are modelled by
`Option`: `none` is the raised error.  Dropout's random keep/drop decisions
are passed in explicitly as a boolean function of the element's indices.
-/

namespace Transformers

noncomputable section

/-- A matrix: a list of rows of real entries. -/
abbrev Mat : Type := List (List ℝ)

/-- A 3-D tensor (batch, seq, feature): a list of matrices. -/
abbrev T3 : Type := List Mat

/-- A 4-D tensor (batch, heads, seq, feature): a list of lists of matrices. -/
abbrev T4 : Type := List (List Mat)

/-- Dot product of two rows, as computed inside a matrix product. -/
def dot (xs ys : List ℝ) : ℝ := (List.zipWith (fun a b => a * b) xs ys).sum

/-- Number of rows of a matrix (`size(-2)` of a 2-D tensor). -/
def seqLen (A : Mat) : ℕ := A.length

/-- Row length of a matrix (`size(-1)` of a 2-D tensor), read off the first row. -/
def featDim (A : Mat) : ℕ := (A.headD []).length

/-- Transpose over the last two axes, `x.transpose(-2, -1)` for one matrix. -/
def tr (A : Mat) : Mat :=
  (List.range (featDim A)).map (fun j => A.map (fun r => r.getD j 0))

/-- Entry values of `torch.matmul` on two matrices (defined on all inputs;
the shape check the library performs is in `matmulChk`). -/
def matmul (A B : Mat) : Mat :=
  A.map (fun r => (tr B).map (fun c => dot r c))

/-- `torch.matmul` on two matrices: raises (returns `none`) unless the
last dimension of `A` matches the number of rows of `B`. -/
def matmulChk (A B : Mat) : Option Mat :=
  if A.all (fun r => r.length = B.length) then some (matmul A B) else none

/-- A score entry after the optional `masked_fill`: `none` stands for
`float(-inf)`. -/
abbrev ExtR : Type := Option ℝ

/-- Exponential extended to masked scores: `exp(-inf) = 0`. -/
def expE : ExtR → ℝ
  | none => 0
  | some x => Real.exp x

/-- One row of `nn.Softmax(dim=-1)`: exponentiate and divide by the row sum
(real-number semantics of the numerically-stabilised library softmax). -/
def softmaxRow (r : List ExtR) : List ℝ :=
  r.map (fun e => expE e / (r.map expE).sum)

/-- `scores.masked_fill(mask == 0, float(-inf))` on one score matrix, with the
key-axis mask row broadcast over all query rows; `none` means no mask was
supplied, so every score stays finite. -/
def applyMask (mrow : Option (List Bool)) (s : Mat) : List (List ExtR) :=
  match mrow with
  | none => s.map (fun r => r.map (fun x => some x))
  | some mr => s.map (fun r => List.zipWith (fun (m : Bool) (x : ℝ) => if m then some x else none) mr r)

/-- Map with the element's position, used to address dropout's per-element
random decisions. -/
def idxMap {α β : Type} (f : ℕ → α → β) (xs : List α) : List β :=
  List.zipWith f (List.range xs.length) xs

/-- `nn.Dropout(p)` on a matrix: in training mode each kept entry is scaled
by `1/(1-p)` and each dropped entry becomes `0`; in evaluation mode it is the
identity.  `keep i j` is the random keep decision for entry `(i, j)`. -/
def dropoutMat (training : Bool) (p : ℝ) (keep : ℕ → ℕ → Bool) (A : Mat) : Mat :=
  if training then
    idxMap (fun i r => idxMap (fun j x => if keep i j then x / (1 - p) else 0) r) A
  else A

/-- `ScaledDotProductAttention.forward` on one (batch, head) slice:
scores = `matmul(query, key.transpose(-2,-1)) / d_k ** 0.5`, optional
`masked_fill`, softmax, dropout, then `matmul(attention_weights, value)`;
returns `(output, attention_weights)` with the weights post-dropout. -/
def sdpaMat (d_k : ℕ) (training : Bool) (p : ℝ) (keep : ℕ → ℕ → Bool)
    (mrow : Option (List Bool)) (qM kM vM : Mat) : Option (Mat × Mat) :=
  match matmulChk qM (tr kM) with
  | none => none
  | some s0 =>
    let scores := s0.map (fun r => r.map (fun x => x / Real.sqrt (d_k : ℝ)))
    let w := (applyMask mrow scores).map softmaxRow
    let wd := dropoutMat training p keep w
    match matmulChk wd vM with
    | none => none
    | some out => some (out, wd)

/-- `ScaledDotProductAttention.forward` vectorised over the head axis;
`h` numbers the heads for the dropout decisions. -/
def sdpaHeads (d_k : ℕ) (training : Bool) (p : ℝ) (keepH : ℕ → ℕ → ℕ → Bool)
    (mrow : Option (List Bool)) :
    ℕ → List Mat → List Mat → List Mat → Option (List Mat × List Mat)
  | h, qM :: qs, kM :: ks, vM :: vs =>
    match sdpaMat d_k training p (keepH h) mrow qM kM vM with
    | none => none
    | some (o, w) =>
      match sdpaHeads d_k training p keepH mrow (h + 1) qs ks vs with
      | none => none
      | some (os, ws) => some (o :: os, w :: ws)
  | _, _, _, _ => some ([], [])
termination_by _ q _ _ => q.length

/-- The key-axis mask row seen by batch `b`: the mask tensor has shape
(batch, 1, 1, seq_len_k) and broadcasts over heads and query positions. -/
def maskRow (mask : Option (List (List Bool))) (b : ℕ) : Option (List Bool) :=
  match mask with
  | none => none
  | some m => some (m.getD b [])

/-- `ScaledDotProductAttention.forward` over the batch axis. -/
def sdpaBatches (d_k : ℕ) (training : Bool) (p : ℝ) (keep : ℕ → ℕ → ℕ → ℕ → Bool)
    (mask : Option (List (List Bool))) :
    ℕ → T4 → T4 → T4 → Option (T4 × T4)
  | b, qB :: qs, kB :: ks, vB :: vs =>
    match sdpaHeads d_k training p (keep b) (maskRow mask b) 0 qB kB vB with
    | none => none
    | some (o, w) =>
      match sdpaBatches d_k training p keep mask (b + 1) qs ks vs with
      | none => none
      | some (os, ws) => some (o :: os, w :: ws)
  | _, _, _, _ => some ([], [])
termination_by _ q _ _ => q.length

/-- `ScaledDotProductAttention.forward` on full (batch, heads, seq, feature)
tensors: returns `(output, attention_weights)` or `none` when the tensor
library rejects a shape. -/
def sdpaForward (d_k : ℕ) (training : Bool) (p : ℝ) (keep : ℕ → ℕ → ℕ → ℕ → Bool)
    (query key value : T4) (mask : Option (List (List Bool))) : Option (T4 × T4) :=
  sdpaBatches d_k training p keep mask 0 query key value

/-- Entry `(b, h, i, j)` of a 4-D tensor (missing indices read as `0`). -/
def entry4 (X : T4) (b h i j : ℕ) : ℝ :=
  (((X.getD b []).getD h []).getD i []).getD j 0

/-- Entry `(b, i, j)` of a 3-D tensor. -/
def entry3 (X : T3) (b i j : ℕ) : ℝ :=
  ((X.getD b []).getD i []).getD j 0

/-- A matrix has `m` rows, each of length `n`. -/
def matShape (A : Mat) (m n : ℕ) : Prop :=
  A.length = m ∧ ∀ r ∈ A, r.length = n

/-- A 3-D tensor has shape (b, s, d). -/
def t3Shape (X : T3) (b s d : ℕ) : Prop :=
  X.length = b ∧ ∀ M ∈ X, matShape M s d

/-- A 4-D tensor has shape (b, h, s, d). -/
def t4Shape (X : T4) (b h s d : ℕ) : Prop :=
  X.length = b ∧ ∀ B ∈ X, B.length = h ∧ ∀ M ∈ B, matShape M s d

/-- Parameters of `MultiHeadAttention`: the four `nn.Linear` layers store a
weight matrix of shape (out_features, in_features) and a bias vector. -/
structure MHACfg where
  d_model : ℕ
  num_heads : ℕ
  Wq : Mat
  bq : List ℝ
  Wk : Mat
  bk : List ℝ
  Wv : Mat
  bv : List ℝ
  Wo : Mat
  bo : List ℝ
  p : ℝ

/-- `self.d_k = d_model // num_heads`. -/
def MHACfg.dk (cfg : MHACfg) : ℕ := cfg.d_model / cfg.num_heads

/-- `MultiHeadAttention.__init__`: the `assert d_model % num_heads == 0`
aborts construction (returns `none`) on a divisibility violation. -/
def mhaInit (d_model num_heads : ℕ) (Wq : Mat) (bq : List ℝ) (Wk : Mat)
    (bk : List ℝ) (Wv : Mat) (bv : List ℝ) (Wo : Mat) (bo : List ℝ)
    (p : ℝ) : Option MHACfg :=
  if d_model % num_heads = 0 then
    some ⟨d_model, num_heads, Wq, bq, Wk, bk, Wv, bv, Wo, bo, p⟩
  else none

/-- `nn.Linear` on one row: `y = x @ W.T + b`, i.e. `y_j = dot x (W_j) + b_j`. -/
def linearRow (W : Mat) (bias r : List ℝ) : List ℝ :=
  List.zipWith (fun a c => a + c) (W.map (fun wrow => dot r wrow)) bias

/-- `nn.Linear` applied to a (seq, feature) matrix, position-wise. -/
def linearMat (W : Mat) (bias : List ℝ) (M : Mat) : Mat :=
  M.map (linearRow W bias)

/-- `nn.Linear` applied to a (batch, seq, feature) tensor. -/
def linear3 (W : Mat) (bias : List ℝ) (X : T3) : T3 :=
  X.map (linearMat W bias)

/-- `MultiHeadAttention.split_heads` on one batch element:
`view(batch, -1, num_heads, d_k)` splits each row into `num_heads` chunks of
length `d_k`, and `permute(0, 2, 1, 3)` gathers chunk `h` of every row into
the matrix of head `h`. -/
def splitHeadsMat (num_heads d_k : ℕ) (M : Mat) : List Mat :=
  (List.range num_heads).map (fun h => M.map (fun r => (r.drop (h * d_k)).take d_k))

/-- `MultiHeadAttention.split_heads` on a (batch, seq, d_model) tensor. -/
def splitHeads (num_heads d_k : ℕ) (X : T3) : T4 :=
  X.map (splitHeadsMat num_heads d_k)

/-- `output.permute(0, 2, 1, 3).contiguous().view(batch, -1, d_model)` on one
batch element: row `i` of the result is the concatenation over heads of row
`i` of each head's matrix. -/
def mergeHeadsMat : List Mat → Mat
  | [] => []
  | [H] => H
  | H :: Hs => List.zipWith (fun a b => a ++ b) H (mergeHeadsMat Hs)

/-- Head recombination on the full (batch, heads, seq, d_k) tensor. -/
def mergeHeads (Y : T4) : T3 :=
  Y.map mergeHeadsMat

/-- `MultiHeadAttention.forward`: project query/key/value, split heads, run
scaled dot-product attention, recombine heads, apply the output projection;
returns `(output, attention_weights)`. -/
def mhaForward (cfg : MHACfg) (training : Bool) (keep : ℕ → ℕ → ℕ → ℕ → Bool)
    (query key value : T3) (mask : Option (List (List Bool))) : Option (T3 × T4) :=
  let q := splitHeads cfg.num_heads cfg.dk (linear3 cfg.Wq cfg.bq query)
  let k := splitHeads cfg.num_heads cfg.dk (linear3 cfg.Wk cfg.bk key)
  let v := splitHeads cfg.num_heads cfg.dk (linear3 cfg.Wv cfg.bv value)
  match sdpaForward cfg.dk training cfg.p keep q k v mask with
  | none => none
  | some (o, w) => some (linear3 cfg.Wo cfg.bo (mergeHeads o), w)

/-- The spec's single-head composition (for the refinement claim): scaled
dot-product attention applied directly between the input projections
`W_q`, `W_k`, `W_v` and the output projection `W_o`, each batch element
carrying one head. -/
def singleHeadAttn (d_k : ℕ) (training : Bool) (p : ℝ)
    (keep : ℕ → ℕ → ℕ → ℕ → Bool) (Wq : Mat) (bq : List ℝ) (Wk : Mat)
    (bk : List ℝ) (Wv : Mat) (bv : List ℝ) (Wo : Mat) (bo : List ℝ)
    (query key value : T3) (mask : Option (List (List Bool))) : Option (T3 × T4) :=
  match sdpaForward d_k training p keep
      ((linear3 Wq bq query).map (fun M => [M]))
      ((linear3 Wk bk key).map (fun M => [M]))
      ((linear3 Wv bv value).map (fun M => [M])) mask with
  | none => none
  | some (o, w) => some (linear3 Wo bo (o.map (fun hs => hs.getD 0 [])), w)

/-- Parameters of `EncoderLayer`: multi-head attention, the two feed-forward
linear layers, the two `nn.LayerNorm` layers (elementwise affine weight and
bias, and `eps`), and the dropout rate. -/
structure EncCfg where
  mha : MHACfg
  W1 : Mat
  b1 : List ℝ
  W2 : Mat
  b2 : List ℝ
  g1 : List ℝ
  beta1 : List ℝ
  g2 : List ℝ
  beta2 : List ℝ
  eps : ℝ
  p : ℝ

/-- `nn.LayerNorm` on one feature row: subtract the mean, divide by the
square root of the biased variance plus `eps`, then apply the elementwise
affine transform. -/
def layerNormRow (g bb : List ℝ) (eps : ℝ) (r : List ℝ) : List ℝ :=
  let n : ℝ := (r.length : ℝ)
  let mu := r.sum / n
  let v := (r.map (fun x => (x - mu) ^ 2)).sum / n
  List.zipWith (fun x gb => (x - mu) / Real.sqrt (v + eps) * gb.1 + gb.2) r (g.zip bb)

/-- `nn.LayerNorm` over the last axis of a (batch, seq, feature) tensor. -/
def layerNorm3 (g bb : List ℝ) (eps : ℝ) (X : T3) : T3 :=
  X.map (fun M => M.map (layerNormRow g bb eps))

/-- `nn.ReLU` on one row. -/
def reluRow (r : List ℝ) : List ℝ :=
  r.map (fun x => max x 0)

/-- `nn.ReLU` on a (batch, seq, feature) tensor. -/
def relu3 (X : T3) : T3 :=
  X.map (fun M => M.map reluRow)

/-- `nn.Dropout` on a (batch, seq, feature) tensor. -/
def dropout3 (training : Bool) (p : ℝ) (keep : ℕ → ℕ → ℕ → Bool) (X : T3) : T3 :=
  if training then
    idxMap (fun b M => idxMap (fun i r =>
      idxMap (fun j x => if keep b i j then x / (1 - p) else 0) r) M) X
  else X

/-- Elementwise addition of two (batch, seq, feature) tensors (the residual
connections). -/
def addT3 (X Y : T3) : T3 :=
  List.zipWith (fun M N => List.zipWith (fun r s => List.zipWith (fun a b => a + b) r s) M N) X Y

/-- Random keep decisions for the dropouts inside one encoder layer: the
attention-weight dropout inside scaled dot-product attention and the layer's
own dropout at the two residual connections. -/
structure EncKeep where
  ka : ℕ → ℕ → ℕ → ℕ → Bool
  k1 : ℕ → ℕ → ℕ → Bool
  k2 : ℕ → ℕ → ℕ → Bool

/-- `EncoderLayer.forward`: multi-head self-attention, residual connection
and layer norm, position-wise feed-forward network, second residual
connection and layer norm. -/
def encLayerForward (cfg : EncCfg) (training : Bool) (ks : EncKeep)
    (x : T3) (mask : Option (List (List Bool))) : Option T3 :=
  match mhaForward cfg.mha training ks.ka x x x mask with
  | none => none
  | some (att, _) =>
    let x1 := layerNorm3 cfg.g1 cfg.beta1 cfg.eps (addT3 x (dropout3 training cfg.p ks.k1 att))
    let ff := linear3 cfg.W2 cfg.b2 (relu3 (linear3 cfg.W1 cfg.b1 x1))
    some (layerNorm3 cfg.g2 cfg.beta2 cfg.eps (addT3 x1 (dropout3 training cfg.p ks.k2 ff)))

/-- The loop body of `TransformerEncoder.forward`: thread the running tensor
through the remaining layers, `i` numbering the layers for their dropout
randomness. -/
def encLayersForward (training : Bool) (keeps : ℕ → EncKeep)
    (mask : Option (List (List Bool))) : ℕ → List EncCfg → T3 → Option T3
  | _, [], x => some x
  | i, L :: Ls, x =>
    match encLayerForward L training (keeps i) x mask with
    | none => none
    | some y => encLayersForward training keeps mask (i + 1) Ls y

/-- `TransformerEncoder.forward`: fold the input through the stacked layers. -/
def encoderForward (layers : List EncCfg) (training : Bool) (keeps : ℕ → EncKeep)
    (x : T3) (mask : Option (List (List Bool))) : Option T3 :=
  encLayersForward training keeps mask 0 layers x

/-- Parameters of `TransformerClassifier`: the encoder stack and the final
`nn.Linear(d_model, num_classes)`. -/
structure ClsCfg where
  enc : List EncCfg
  Wc : Mat
  bc : List ℝ

/-- `TransformerClassifier.forward`: run the encoder, then apply the
classification linear layer at every position. -/
def classifierForward (cfg : ClsCfg) (training : Bool) (keeps : ℕ → EncKeep)
    (x : T3) (mask : Option (List (List Bool))) : Option T3 :=
  match encoderForward cfg.enc training keeps x mask with
  | none => none
  | some y => some (linear3 cfg.Wc cfg.bc y)

/-- The `attention_weights` value that `ScaledDotProductAttention.forward`
computes (and returns): dropout applied to the softmax of the optionally
masked, scaled score matrix. -/
def sdpaWeights (d_k : ℕ) (training : Bool) (p : ℝ) (keep : ℕ → ℕ → Bool)
    (mrow : Option (List Bool)) (qM kM : Mat) : Mat :=
  dropoutMat training p keep
    ((applyMask mrow ((matmul qM (tr kM)).map
        (fun r => r.map (fun x => x / Real.sqrt (d_k : ℝ))))).map softmaxRow)

/-- The (seq, feature) matrix of batch `b`, head `h` of a 4-D tensor. -/
def mat4 (X : T4) (b h : ℕ) : Mat := (X.getD b []).getD h []

/-- Feature row `(b, h, i)` of a 4-D tensor. -/
def row4 (X : T4) (b h i : ℕ) : List ℝ := ((X.getD b []).getD h []).getD i []

end

/-! ## List toolkit -/

theorem length_idxMap {α β : Type} (f : ℕ → α → β) (xs : List α) :
    (idxMap f xs).length = xs.length := by
  simp [idxMap]

theorem getD_idxMap {α β : Type} (f : ℕ → α → β) (xs : List α) (i : ℕ)
    (h : i < xs.length) (d : α) (e : β) :
    (idxMap f xs).getD i e = f i (xs.getD i d) := by
  rw [List.getD_eq_getElem _ _ (by simpa [length_idxMap] using h),
    List.getD_eq_getElem _ _ h]
  simp [idxMap]

theorem list_sum_getD (l : List ℝ) :
    l.sum = ∑ i ∈ Finset.range l.length, l.getD i 0 := by
  induction l with
  | nil => simp
  | cons a as ih =>
    rw [List.sum_cons, ih, List.length_cons, Finset.sum_range_succ']
    simp [add_comm]

theorem dot_eq_sum {xs ys : List ℝ} {n : ℕ} (hx : xs.length = n) (hy : ys.length = n) :
    dot xs ys = ∑ i ∈ Finset.range n, xs.getD i 0 * ys.getD i 0 := by
  subst hx
  rw [dot, list_sum_getD]
  have hlen : (List.zipWith (fun a b => a * b) xs ys).length = xs.length := by
    simp [List.length_zipWith, hy.le, Nat.min_eq_left, hy]
  rw [hlen]
  refine Finset.sum_congr rfl (fun i hi => ?_)
  have hi2 : i < xs.length := Finset.mem_range.mp hi
  have hi3 : i < ys.length := by omega
  rw [List.getD_eq_getElem _ _ (by rwa [hlen]),
    List.getD_eq_getElem _ _ hi2, List.getD_eq_getElem _ _ hi3,
    List.getElem_zipWith]

/-! ## Shape lemmas for the basic operations -/

theorem featDim_of_shape {A : Mat} {m n : ℕ} (hm : 0 < m) (hA : matShape A m n) :
    featDim A = n := by
  rcases A with _ | ⟨r, rs⟩
  · simp [matShape] at hA; omega
  · exact hA.2 r (by simp)

theorem tr_shape {A : Mat} {m n : ℕ} (hm : 0 < m) (hA : matShape A m n) :
    matShape (tr A) n m := by
  constructor
  · simp [tr, featDim_of_shape hm hA]
  · intro r hr
    simp only [tr] at hr
    rcases List.mem_map.mp hr with ⟨j, _, rfl⟩
    simp [hA.1]

theorem getD_map_in {α β : Type} (f : α → β) (l : List α) {i : ℕ}
    (h : i < l.length) (dα : α) (dβ : β) :
    (l.map f).getD i dβ = f (l.getD i dα) := by
  rw [List.getD_eq_getElem _ _ (by simpa using h), List.getElem_map,
    List.getD_eq_getElem _ _ h]

theorem getD_range {n i : ℕ} (h : i < n) (d : ℕ) :
    (List.range n).getD i d = i := by
  rw [List.getD_eq_getElem _ _ (by simpa using h)]
  simp

theorem tr_getD {A : Mat} {m n : ℕ} (hA : matShape A m n) {i j : ℕ}
    (hi : i < n) (hj : j < m) :
    ((tr A).getD i []).getD j 0 = (A.getD j []).getD i 0 := by
  have hm : 0 < m := by omega
  have hjA : j < A.length := by rw [hA.1]; exact hj
  rw [tr, featDim_of_shape hm hA, getD_map_in _ _ (by simpa using hi) 0 [],
    getD_range hi, getD_map_in _ _ hjA [] 0]

theorem matmul_shape {A B : Mat} {m k n : ℕ} (hA : matShape A m k)
    (hB : matShape B k n) (hk : 0 < k) : matShape (matmul A B) m n := by
  have htr := tr_shape hk hB
  constructor
  · simp [matmul, hA.1]
  · intro r hr
    rcases List.mem_map.mp hr with ⟨row, _, rfl⟩
    simp [htr.1]

theorem matmulChk_eq_some {A B : Mat} {m k n : ℕ} (hA : matShape A m k)
    (hB : matShape B k n) : matmulChk A B = some (matmul A B) := by
  rw [matmulChk, if_pos]
  rw [List.all_eq_true]
  intro r hr
  simp [hA.2 r hr, hB.1]

theorem matmul_getD {A B : Mat} {m k n : ℕ} (hA : matShape A m k)
    (hB : matShape B k n) (hk : 0 < k) {i j : ℕ} (hi : i < m) (hj : j < n) :
    ((matmul A B).getD i []).getD j 0 = dot (A.getD i []) ((tr B).getD j []) := by
  have hiA : i < A.length := by rw [hA.1]; exact hi
  have htr := tr_shape hk hB
  have hjt : j < (tr B).length := by rw [htr.1]; exact hj
  rw [matmul, getD_map_in _ _ hiA [] [], getD_map_in _ _ hjt [] 0]

/-- Generic grid of shape (m, n), for matrices over any entry type. -/
def gridShape {α : Type} (A : List (List α)) (m n : ℕ) : Prop :=
  A.length = m ∧ ∀ r ∈ A, r.length = n

theorem gridShape_of_getD {α : Type} {A : List (List α)} {m n : ℕ}
    (hlen : A.length = m) (h : ∀ i, i < m → (A.getD i []).length = n) :
    gridShape A m n := by
  refine ⟨hlen, fun r hr => ?_⟩
  rcases List.mem_iff_getElem.mp hr with ⟨i, hi, rfl⟩
  have h2 := h i (by omega)
  rwa [List.getD_eq_getElem _ _ hi] at h2

theorem matShape_iff_gridShape {A : Mat} {m n : ℕ} :
    matShape A m n ↔ gridShape A m n := Iff.rfl

theorem gridShape_getD_length {α : Type} {A : List (List α)} {m n : ℕ}
    (h : gridShape A m n) {i : ℕ} (hi : i < m) : (A.getD i []).length = n := by
  have hiA : i < A.length := by rw [h.1]; exact hi
  rw [List.getD_eq_getElem _ _ hiA]
  exact h.2 _ (by simp)

/-! ## Softmax, mask and dropout lemmas -/

theorem expE_nonneg (e : ExtR) : 0 ≤ expE e := by
  cases e with
  | none => simp [expE]
  | some x => exact le_of_lt (by simp [expE, Real.exp_pos])

theorem softmaxRow_length (r : List ExtR) : (softmaxRow r).length = r.length := by
  simp [softmaxRow]

theorem softmaxRow_getD {r : List ExtR} {j : ℕ} (h : j < r.length) :
    (softmaxRow r).getD j 0 = expE (r.getD j none) / (r.map expE).sum := by
  rw [softmaxRow, getD_map_in _ _ h none 0]

theorem sum_map_expE (r : List ExtR) :
    (r.map expE).sum = ∑ j ∈ Finset.range r.length, expE (r.getD j none) := by
  rw [list_sum_getD, List.length_map]
  refine Finset.sum_congr rfl (fun j hj => ?_)
  exact getD_map_in expE r (Finset.mem_range.mp hj) none 0

theorem softmaxRow_nonneg (r : List ExtR) (x : ℝ) (hx : x ∈ softmaxRow r) : 0 ≤ x := by
  rcases List.mem_map.mp hx with ⟨e, _, rfl⟩
  refine div_nonneg (expE_nonneg e) ?_
  exact List.sum_nonneg (fun y hy => by
    rcases List.mem_map.mp hy with ⟨e2, _, rfl⟩
    exact expE_nonneg e2)

theorem sum_map_div {α : Type} (l : List α) (f : α → ℝ) (t : ℝ) :
    (l.map (fun x => f x / t)).sum = (l.map f).sum / t := by
  induction l with
  | nil => simp
  | cons a as ih => simp [ih, add_div]

theorem softmaxRow_sum_one (r : List ExtR) (hne : r ≠ [])
    (hfin : ∀ e ∈ r, e ≠ none) : (softmaxRow r).sum = 1 := by
  have hpos : 0 < (r.map expE).sum := by
    apply List.sum_pos
    · intro x hx
      rcases List.mem_map.mp hx with ⟨e, he, rfl⟩
      cases e with
      | none => exact absurd rfl (hfin none he)
      | some y => simp [expE, Real.exp_pos]
    · simpa using hne
  rw [softmaxRow, sum_map_div]
  exact div_self (ne_of_gt hpos)

theorem dropoutMat_shape {A : Mat} {m n : ℕ} (h : matShape A m n)
    (training : Bool) (p : ℝ) (keep : ℕ → ℕ → Bool) :
    matShape (dropoutMat training p keep A) m n := by
  cases training with
  | false => simpa [dropoutMat] using h
  | true =>
    rw [matShape_iff_gridShape]
    refine gridShape_of_getD (by simp [dropoutMat, length_idxMap, h.1]) ?_
    intro i hi
    have hiA : i < A.length := by rw [h.1]; exact hi
    rw [dropoutMat, if_pos rfl, getD_idxMap _ _ _ hiA [] [], length_idxMap]
    exact gridShape_getD_length h hi

theorem dropoutMat_getD {A : Mat} {i j : ℕ} (hi : i < A.length)
    (hj : j < (A.getD i []).length) (training : Bool) (p : ℝ) (keep : ℕ → ℕ → Bool) :
    ((dropoutMat training p keep A).getD i []).getD j 0 =
      (if training then
        (if keep i j then (A.getD i []).getD j 0 / (1 - p) else 0)
       else (A.getD i []).getD j 0) := by
  cases training with
  | false => simp [dropoutMat]
  | true =>
    rw [dropoutMat, if_pos rfl, getD_idxMap _ _ _ hi [] [], getD_idxMap _ _ _ hj 0 0]
    simp

theorem dropoutMat_getD_zero {A : Mat} {i j : ℕ} (hi : i < A.length)
    (hj : j < (A.getD i []).length) (hz : (A.getD i []).getD j 0 = 0)
    (training : Bool) (p : ℝ) (keep : ℕ → ℕ → Bool) :
    ((dropoutMat training p keep A).getD i []).getD j 0 = 0 := by
  rw [dropoutMat_getD hi hj, hz]
  cases training <;> simp

theorem applyMask_none_getD (s : Mat) {i : ℕ} (hi : i < s.length) :
    (applyMask none s).getD i [] = (s.getD i []).map some := by
  rw [applyMask]
  exact getD_map_in _ _ hi [] []

theorem applyMask_some_getD (mr : List Bool) (s : Mat) {i : ℕ} (hi : i < s.length) :
    (applyMask (some mr) s).getD i [] =
      List.zipWith (fun (m : Bool) (x : ℝ) => if m then some x else none) mr (s.getD i []) := by
  rw [applyMask]
  exact getD_map_in _ _ hi [] []

theorem applyMask_shape {s : Mat} {m n : ℕ} (hs : matShape s m n)
    (mrow : Option (List Bool)) (hm : ∀ mr, mrow = some mr → mr.length = n) :
    gridShape (applyMask mrow s) m n := by
  cases mrow with
  | none =>
    refine ⟨by simp [applyMask, hs.1], fun r hr => ?_⟩
    rcases List.mem_map.mp hr with ⟨row, hrow, rfl⟩
    simp [hs.2 row hrow]
  | some mr =>
    refine ⟨by simp [applyMask, hs.1], fun r hr => ?_⟩
    rcases List.mem_map.mp hr with ⟨row, hrow, rfl⟩
    simp [List.length_zipWith, hs.2 row hrow, hm mr rfl]

theorem list_eq_of_getD {l1 l2 : List ℝ} {n : ℕ} (h1 : l1.length = n)
    (h2 : l2.length = n) (h : ∀ t, t < n → l1.getD t 0 = l2.getD t 0) :
    l1 = l2 := by
  apply List.ext_getElem (by omega)
  intro t ht1 ht2
  have h3 := h t (by omega)
  rwa [List.getD_eq_getElem _ _ ht1, List.getD_eq_getElem _ _ ht2] at h3

theorem getD_zipWith_in {α β γ : Type} (f : α → β → γ) {l1 : List α}
    {l2 : List β} {j : ℕ} (h1 : j < l1.length) (h2 : j < l2.length)
    (d1 : α) (d2 : β) (d3 : γ) :
    (List.zipWith f l1 l2).getD j d3 = f (l1.getD j d1) (l2.getD j d2) := by
  rw [List.getD_eq_getElem _ _ (by simp [List.length_zipWith]; omega),
    List.getElem_zipWith, List.getD_eq_getElem _ _ h1, List.getD_eq_getElem _ _ h2]

theorem tr_tr_getD {A : Mat} {m n : ℕ} (hA : matShape A m n) (hm : 0 < m)
    (hn : 0 < n) {j : ℕ} (hj : j < m) :
    (tr (tr A)).getD j [] = A.getD j [] := by
  have htr := tr_shape hm hA
  have htr2 := tr_shape hn htr
  refine list_eq_of_getD (gridShape_getD_length htr2 hj)
    (gridShape_getD_length hA hj) (fun t ht => ?_)
  rw [tr_getD htr hj ht, tr_getD hA ht hj]

theorem mapRow_shape {A : Mat} {m n : ℕ} (h : matShape A m n) (f : ℝ → ℝ) :
    matShape (A.map (fun r => r.map f)) m n := by
  refine ⟨by simp [h.1], fun r hr => ?_⟩
  rcases List.mem_map.mp hr with ⟨row, hrow, rfl⟩
  simp [h.2 row hrow]

theorem mapRow_getD {A : Mat} (f : ℝ → ℝ) {i j : ℕ} (hi : i < A.length)
    (hj : j < (A.getD i []).length) :
    ((A.map (fun r => r.map f)).getD i []).getD j 0 = f ((A.getD i []).getD j 0) := by
  rw [getD_map_in _ _ hi [] [], getD_map_in _ _ hj 0 0]

/-! ## The scaled dot-product attention pipeline -/

theorem scaled_scores_shape {qM kM : Mat} {s_q s_k d : ℕ}
    (hq : matShape qM s_q d) (hk : matShape kM s_k d) (hd : 0 < d)
    (hsk : 0 < s_k) (c : ℝ) :
    matShape ((matmul qM (tr kM)).map (fun r => r.map (fun x => x / c))) s_q s_k :=
  mapRow_shape (matmul_shape hq (tr_shape hsk hk) hd) _

theorem scaled_scores_getD {qM kM : Mat} {s_q s_k d : ℕ}
    (hq : matShape qM s_q d) (hk : matShape kM s_k d) (hd : 0 < d)
    (hsk : 0 < s_k) (c : ℝ) {i j : ℕ} (hi : i < s_q) (hj : j < s_k) :
    (((matmul qM (tr kM)).map (fun r => r.map (fun x => x / c))).getD i []).getD j 0 =
      dot (qM.getD i []) (kM.getD j []) / c := by
  have hmm := matmul_shape hq (tr_shape hsk hk) hd
  have hi2 : i < (matmul qM (tr kM)).length := by rw [hmm.1]; exact hi
  have hj2 : j < ((matmul qM (tr kM)).getD i []).length := by
    rw [gridShape_getD_length hmm hi]; exact hj
  rw [mapRow_getD _ hi2 hj2, matmul_getD hq (tr_shape hsk hk) hd hi hj,
    tr_tr_getD hk hsk hd hj]

/-- Shape of the weights matrix computed inside the attention forward pass. -/
theorem sdpaWeights_shape {qM kM : Mat} {s_q s_k d : ℕ}
    (hq : matShape qM s_q d) (hk : matShape kM s_k d) (hd : 0 < d)
    (hsk : 0 < s_k) (d_k : ℕ) (training : Bool) (p : ℝ) (keep : ℕ → ℕ → Bool)
    (mrow : Option (List Bool)) (hm : ∀ mr, mrow = some mr → mr.length = s_k) :
    matShape (sdpaWeights d_k training p keep mrow qM kM) s_q s_k := by
  apply dropoutMat_shape
  have hmask := applyMask_shape
    (scaled_scores_shape hq hk hd hsk (Real.sqrt (d_k : ℝ))) mrow hm
  refine ⟨by simp [hmask.1], fun r hr => ?_⟩
  rcases List.mem_map.mp hr with ⟨row, hrow, rfl⟩
  rw [softmaxRow_length]
  exact hmask.2 row hrow

/-- Under well-formed shapes the attention forward pass on one slice
succeeds and returns exactly the weights matrix and its product with the
value matrix. -/
theorem sdpaMat_eq_some {qM kM vM : Mat} {s_q s_k d dv : ℕ}
    (hq : matShape qM s_q d) (hk : matShape kM s_k d) (hv : matShape vM s_k dv)
    (hd : 0 < d) (hsk : 0 < s_k) (d_k : ℕ) (training : Bool) (p : ℝ)
    (keep : ℕ → ℕ → Bool) (mrow : Option (List Bool))
    (hm : ∀ mr, mrow = some mr → mr.length = s_k) :
    sdpaMat d_k training p keep mrow qM kM vM =
      some (matmul (sdpaWeights d_k training p keep mrow qM kM) vM,
        sdpaWeights d_k training p keep mrow qM kM) := by
  have h1 : matmulChk qM (tr kM) = some (matmul qM (tr kM)) :=
    matmulChk_eq_some hq (tr_shape hsk hk)
  have hw := sdpaWeights_shape hq hk hd hsk d_k training p keep mrow hm
  have h2 : matmulChk (sdpaWeights d_k training p keep mrow qM kM) vM =
      some (matmul (sdpaWeights d_k training p keep mrow qM kM) vM) :=
    matmulChk_eq_some hw hv
  rw [sdpaMat, h1]
  simp only [sdpaWeights] at h2 ⊢
  rw [h2]

/-- In evaluation mode with no mask, row `i` of the attention weights is the
softmax of the scaled score row. -/
theorem sdpaWeights_row_eval {qM kM : Mat} {s_q s_k d : ℕ}
    (hq : matShape qM s_q d) (hk : matShape kM s_k d) (hd : 0 < d)
    (hsk : 0 < s_k) (d_k : ℕ) (p : ℝ) (keep : ℕ → ℕ → Bool) {i : ℕ} (hi : i < s_q) :
    (sdpaWeights d_k false p keep none qM kM).getD i [] =
      softmaxRow ((((matmul qM (tr kM)).map
        (fun r => r.map (fun x => x / Real.sqrt (d_k : ℝ)))).getD i []).map some) := by
  have hS := scaled_scores_shape hq hk hd hsk (Real.sqrt (d_k : ℝ))
  have hiS : i < ((matmul qM (tr kM)).map
      (fun r => r.map (fun x => x / Real.sqrt (d_k : ℝ)))).length := by
    rw [hS.1]; exact hi
  rw [sdpaWeights, dropoutMat]
  simp only [Bool.false_eq_true, if_false]
  rw [getD_map_in _ _ (by simpa [applyMask] using hiS) [] [],
    applyMask_none_getD _ hiS]

/-- In evaluation mode with no mask, entry `(i, j)` of the attention weights
is the softmax expression of the scaled query/key dot products. -/
theorem sdpaWeights_getD_eval {qM kM : Mat} {s_q s_k d : ℕ}
    (hq : matShape qM s_q d) (hk : matShape kM s_k d) (hd : 0 < d)
    (hsk : 0 < s_k) (d_k : ℕ) (p : ℝ) (keep : ℕ → ℕ → Bool) {i j : ℕ}
    (hi : i < s_q) (hj : j < s_k) :
    ((sdpaWeights d_k false p keep none qM kM).getD i []).getD j 0 =
      Real.exp (dot (qM.getD i []) (kM.getD j []) / Real.sqrt (d_k : ℝ)) /
        ∑ j2 ∈ Finset.range s_k,
          Real.exp (dot (qM.getD i []) (kM.getD j2 []) / Real.sqrt (d_k : ℝ)) := by
  have hS := scaled_scores_shape hq hk hd hsk (Real.sqrt (d_k : ℝ))
  have hrowlen : (((matmul qM (tr kM)).map
      (fun r => r.map (fun x => x / Real.sqrt (d_k : ℝ)))).getD i []).length = s_k :=
    gridShape_getD_length hS hi
  rw [sdpaWeights_row_eval hq hk hd hsk d_k p keep hi,
    softmaxRow_getD (by rw [List.length_map, hrowlen]; exact hj),
    getD_map_in _ _ (by rw [hrowlen]; exact hj) 0 none, List.map_map]
  have hcomp : expE ∘ some = Real.exp := by
    funext x; simp [expE, Function.comp]
  rw [hcomp, scaled_scores_getD hq hk hd hsk _ hi hj, expE]
  congr 1
  rw [list_sum_getD, List.length_map, hrowlen]
  refine Finset.sum_congr rfl (fun j2 hj2 => ?_)
  have hj2b : j2 < s_k := Finset.mem_range.mp hj2
  rw [getD_map_in _ _ (by rw [hrowlen]; exact hj2b) 0 0,
    scaled_scores_getD hq hk hd hsk _ hi hj2b]

/-- Masked-out key positions carry exactly zero weight, in any dropout mode. -/
theorem sdpaWeights_masked_zero {qM kM : Mat} {s_q s_k d : ℕ}
    (hq : matShape qM s_q d) (hk : matShape kM s_k d) (hd : 0 < d)
    (hsk : 0 < s_k) (d_k : ℕ) (training : Bool) (p : ℝ) (keep : ℕ → ℕ → Bool)
    {mr : List Bool} (hmr : mr.length = s_k) {i j : ℕ} (hi : i < s_q)
    (hj : j < s_k) (hmask : mr.getD j true = false) :
    ((sdpaWeights d_k training p keep (some mr) qM kM).getD i []).getD j 0 = 0 := by
  have hS := scaled_scores_shape hq hk hd hsk (Real.sqrt (d_k : ℝ))
  set S := (matmul qM (tr kM)).map (fun r => r.map (fun x => x / Real.sqrt (d_k : ℝ))) with hSdef
  have hiS : i < S.length := by rw [hS.1]; exact hi
  have hlenS : (S.getD i []).length = s_k := gridShape_getD_length hS hi
  have hW0 : gridShape ((applyMask (some mr) S).map softmaxRow) s_q s_k := by
    have hmask2 := applyMask_shape hS (some mr) (fun m hm => by cases hm; exact hmr)
    refine ⟨by simp [hmask2.1], fun r hr => ?_⟩
    rcases List.mem_map.mp hr with ⟨row, hrow, rfl⟩
    rw [softmaxRow_length]
    exact hmask2.2 row hrow
  have hrow0 : ((applyMask (some mr) S).map softmaxRow).getD i [] =
      softmaxRow (List.zipWith (fun (m : Bool) (x : ℝ) => if m then some x else none)
        mr (S.getD i [])) := by
    rw [getD_map_in _ _ (by simp [applyMask, hiS]) [] [], applyMask_some_getD mr S hiS]
  have hz : (((applyMask (some mr) S).map softmaxRow).getD i []).getD j 0 = 0 := by
    rw [hrow0, softmaxRow_getD (by rw [List.length_zipWith, hmr, hlenS]; omega),
      getD_zipWith_in _ (by rw [hmr]; exact hj)
        (by rw [hlenS]; exact hj) true 0 none, hmask]
    simp [expE]
  rw [sdpaWeights]
  exact dropoutMat_getD_zero (by rw [hW0.1]; exact hi)
    (by rw [gridShape_getD_length hW0 hi]; exact hj) hz training p keep

/-- In evaluation mode with no mask, each weight row is non-negative and sums
to one. -/
theorem sdpaWeights_row_sum_eval {qM kM : Mat} {s_q s_k d : ℕ}
    (hq : matShape qM s_q d) (hk : matShape kM s_k d) (hd : 0 < d)
    (hsk : 0 < s_k) (d_k : ℕ) (p : ℝ) (keep : ℕ → ℕ → Bool) {i : ℕ} (hi : i < s_q) :
    (∀ x ∈ (sdpaWeights d_k false p keep none qM kM).getD i [], 0 ≤ x) ∧
      ((sdpaWeights d_k false p keep none qM kM).getD i []).sum = 1 := by
  have hS := scaled_scores_shape hq hk hd hsk (Real.sqrt (d_k : ℝ))
  have hrowlen : (((matmul qM (tr kM)).map
      (fun r => r.map (fun x => x / Real.sqrt (d_k : ℝ)))).getD i []).length = s_k :=
    gridShape_getD_length hS hi
  rw [sdpaWeights_row_eval hq hk hd hsk d_k p keep hi]
  constructor
  · exact fun x hx => softmaxRow_nonneg _ x hx
  · apply softmaxRow_sum_one
    · intro hcon
      have hlen2 : ((((matmul qM (tr kM)).map
          (fun r => r.map (fun x => x / Real.sqrt (d_k : ℝ)))).getD i []).map some).length = s_k := by
        rw [List.length_map, hrowlen]
      rw [hcon] at hlen2
      simp at hlen2
      omega
    · intro e he
      rcases List.mem_map.mp he with ⟨x, _, rfl⟩
      simp

/-! ## Plumbing over the head and batch axes -/

theorem t4Shape_of_getD {X : T4} {b h s d : ℕ} (hlen : X.length = b)
    (hrow : ∀ bi, bi < b → (X.getD bi []).length = h)
    (hmat : ∀ bi hi, bi < b → hi < h → matShape (mat4 X bi hi) s d) :
    t4Shape X b h s d := by
  refine ⟨hlen, fun B hB => ?_⟩
  rcases List.mem_iff_getElem.mp hB with ⟨bi, hbi, rfl⟩
  have hb2 : bi < b := by omega
  have hgd : X.getD bi [] = X[bi] := List.getD_eq_getElem X [] hbi
  constructor
  · rw [← hgd]; exact hrow bi hb2
  · intro M hM
    rcases List.mem_iff_getElem.mp hM with ⟨hi, hhi, rfl⟩
    have hh2 : hi < h := by rw [← hgd] at hhi; rw [← hrow bi hb2]; exact hhi
    have h3 := hmat bi hi hb2 hh2
    rwa [mat4, hgd, List.getD_eq_getElem _ [] hhi] at h3

theorem sdpaHeads_eq (d_k : ℕ) (training : Bool) (p : ℝ) (keepH : ℕ → ℕ → ℕ → Bool)
    (mrow : Option (List Bool)) {s_q s_k d dv : ℕ} (hd : 0 < d) (hsk : 0 < s_k)
    (hm : ∀ mr, mrow = some mr → mr.length = s_k) :
    ∀ (qB kB vB : List Mat) (h0 : ℕ),
      qB.length = kB.length → qB.length = vB.length →
      (∀ M ∈ qB, matShape M s_q d) → (∀ M ∈ kB, matShape M s_k d) →
      (∀ M ∈ vB, matShape M s_k dv) →
      ∃ os ws, sdpaHeads d_k training p keepH mrow h0 qB kB vB = some (os, ws) ∧
        os.length = qB.length ∧ ws.length = qB.length ∧
        ∀ t, t < qB.length →
          ws.getD t [] = sdpaWeights d_k training p (keepH (h0 + t)) mrow
            (qB.getD t []) (kB.getD t []) ∧
          os.getD t [] = matmul (ws.getD t []) (vB.getD t []) := by
  intro qB
  induction qB with
  | nil =>
    intro kB vB h0 _ _ _ _ _
    exact ⟨[], [], by simp [sdpaHeads], by simp, by simp,
      by intro t ht; exact absurd ht (by simp)⟩
  | cons qM qs ih =>
    intro kB vB h0 hlk hlv hq hk hv
    rcases kB with _ | ⟨kM, ks⟩
    · simp at hlk
    rcases vB with _ | ⟨vM, vs⟩
    · simp at hlv
    have hqM := hq qM (by simp)
    have hkM := hk kM (by simp)
    have hvM := hv vM (by simp)
    rcases ih ks vs (h0 + 1) (by simpa using hlk) (by simpa using hlv)
        (fun M hM => hq M (by simp [hM])) (fun M hM => hk M (by simp [hM]))
        (fun M hM => hv M (by simp [hM])) with ⟨os, ws, heq, hlo, hlw, hpt⟩
    refine ⟨matmul (sdpaWeights d_k training p (keepH h0) mrow qM kM) vM :: os,
      sdpaWeights d_k training p (keepH h0) mrow qM kM :: ws, ?_, by simp [hlo],
      by simp [hlw], ?_⟩
    · rw [sdpaHeads, sdpaMat_eq_some hqM hkM hvM hd hsk d_k training p
        (keepH h0) mrow hm, heq]
    · intro t ht
      cases t with
      | zero => simp
      | succ t2 =>
        have ht2 : t2 < qs.length := by simpa using ht
        have harith : h0 + 1 + t2 = h0 + (t2 + 1) := by omega
        have hc := hpt t2 ht2
        constructor
        · rw [List.getD_cons_succ, List.getD_cons_succ, List.getD_cons_succ,
            ← harith]
          exact hc.1
        · rw [List.getD_cons_succ, List.getD_cons_succ, List.getD_cons_succ]
          exact hc.2

theorem sdpaBatches_eq (d_k : ℕ) (training : Bool) (p : ℝ)
    (keep : ℕ → ℕ → ℕ → ℕ → Bool) (mask : Option (List (List Bool)))
    {nh s_q s_k d dv : ℕ} (hd : 0 < d) (hsk : 0 < s_k) :
    ∀ (qT kT vT : T4) (b0 : ℕ),
      qT.length = kT.length → qT.length = vT.length →
      (∀ B ∈ qT, B.length = nh ∧ ∀ M ∈ B, matShape M s_q d) →
      (∀ B ∈ kT, B.length = nh ∧ ∀ M ∈ B, matShape M s_k d) →
      (∀ B ∈ vT, B.length = nh ∧ ∀ M ∈ B, matShape M s_k dv) →
      (∀ t, t < qT.length → ∀ mr, maskRow mask (b0 + t) = some mr → mr.length = s_k) →
      ∃ out w, sdpaBatches d_k training p keep mask b0 qT kT vT = some (out, w) ∧
        out.length = qT.length ∧ w.length = qT.length ∧
        ∀ t, t < qT.length →
          (out.getD t []).length = nh ∧ (w.getD t []).length = nh ∧
          ∀ hi, hi < nh →
            (w.getD t []).getD hi [] = sdpaWeights d_k training p (keep (b0 + t) hi)
              (maskRow mask (b0 + t)) ((qT.getD t []).getD hi [])
              ((kT.getD t []).getD hi []) ∧
            (out.getD t []).getD hi [] =
              matmul ((w.getD t []).getD hi []) ((vT.getD t []).getD hi []) := by
  intro qT
  induction qT with
  | nil =>
    intro kT vT b0 _ _ _ _ _ _
    exact ⟨[], [], by simp [sdpaBatches], by simp, by simp,
      by intro t ht; exact absurd ht (by simp)⟩
  | cons qB qs ih =>
    intro kT vT b0 hlk hlv hq hk hv hmask
    rcases kT with _ | ⟨kB, ks⟩
    · simp at hlk
    rcases vT with _ | ⟨vB, vs⟩
    · simp at hlv
    have hqB := hq qB (by simp)
    have hkB := hk kB (by simp)
    have hvB := hv vB (by simp)
    have hm0 : ∀ mr, maskRow mask b0 = some mr → mr.length = s_k := by
      have := hmask 0 (by simp)
      simpa using this
    rcases sdpaHeads_eq d_k training p (keep b0) (maskRow mask b0) hd hsk hm0
        qB kB vB 0 (by rw [hqB.1, hkB.1]) (by rw [hqB.1, hvB.1])
        hqB.2 hkB.2 hvB.2 with ⟨os, ws, heq, hlo, hlw, hpt⟩
    rcases ih ks vs (b0 + 1) (by simpa using hlk) (by simpa using hlv)
        (fun B hB => hq B (by simp [hB])) (fun B hB => hk B (by simp [hB]))
        (fun B hB => hv B (by simp [hB]))
        (fun t ht mr hmr => by
          have harith : b0 + 1 + t = b0 + (t + 1) := by omega
          exact hmask (t + 1) (by simpa using ht) mr (by rwa [← harith])) with
      ⟨out, w, heq2, hlo2, hlw2, hpt2⟩
    refine ⟨os :: out, ws :: w, ?_, by simp [hlo2], by simp [hlw2], ?_⟩
    · rw [sdpaBatches, heq, heq2]
    · intro t ht
      cases t with
      | zero =>
        refine ⟨by simpa [hqB.1] using hlo, by simpa [hqB.1] using hlw, ?_⟩
        intro hi hhi
        have hc := hpt hi (by rw [hqB.1]; exact hhi)
        simp only [List.getD_cons_zero, Nat.add_zero, Nat.zero_add] at hc ⊢
        exact hc
      | succ t2 =>
        have ht2 : t2 < qs.length := by simpa using ht
        have harith : b0 + 1 + t2 = b0 + (t2 + 1) := by omega
        have hc := hpt2 t2 ht2
        rw [harith] at hc
        simp only [List.getD_cons_succ]
        exact hc

/-- Master lemma: under well-formed shapes, `ScaledDotProductAttention.forward`
succeeds, and each (batch, head) slice of the result is the weights matrix
`sdpaWeights` together with its product with the value slice. -/
theorem sdpaForward_eq (d_k : ℕ) (training : Bool) (p : ℝ)
    (keep : ℕ → ℕ → ℕ → ℕ → Bool) {q k v : T4} {b nh s_q s_k d dv : ℕ}
    (hq : t4Shape q b nh s_q d) (hk : t4Shape k b nh s_k d)
    (hv : t4Shape v b nh s_k dv) (hd : 0 < d) (hsk : 0 < s_k)
    (mask : Option (List (List Bool)))
    (hmask : ∀ m, mask = some m → ∀ bi, bi < b → (m.getD bi []).length = s_k) :
    ∃ out w, sdpaForward d_k training p keep q k v mask = some (out, w) ∧
      out.length = b ∧ w.length = b ∧
      (∀ bi, bi < b → (out.getD bi []).length = nh ∧ (w.getD bi []).length = nh) ∧
      ∀ bi hi, bi < b → hi < nh →
        mat4 w bi hi = sdpaWeights d_k training p (keep bi hi) (maskRow mask bi)
          (mat4 q bi hi) (mat4 k bi hi) ∧
        mat4 out bi hi = matmul (mat4 w bi hi) (mat4 v bi hi) := by
  have hq2 : ∀ B ∈ q, B.length = nh ∧ ∀ M ∈ B, matShape M s_q d := hq.2
  have hk2 : ∀ B ∈ k, B.length = nh ∧ ∀ M ∈ B, matShape M s_k d := hk.2
  have hv2 : ∀ B ∈ v, B.length = nh ∧ ∀ M ∈ B, matShape M s_k dv := hv.2
  have hmask2 : ∀ t, t < q.length → ∀ mr, maskRow mask (0 + t) = some mr →
      mr.length = s_k := by
    intro t ht mr hmr
    cases mask with
    | none => simp [maskRow] at hmr
    | some m =>
      simp only [maskRow, Option.some_inj] at hmr
      rw [← hmr, Nat.zero_add]
      exact hmask m rfl t (by rw [← hq.1]; exact ht)
  rcases sdpaBatches_eq d_k training p keep mask hd hsk q k v 0
      (by rw [hq.1, hk.1]) (by rw [hq.1, hv.1]) hq2 hk2 hv2 hmask2 with
    ⟨out, w, heq, hlo, hlw, hpt⟩
  refine ⟨out, w, heq, by rw [hlo, hq.1], by rw [hlw, hq.1], ?_, ?_⟩
  · intro bi hbi
    have hc := hpt bi (by rw [hq.1]; exact hbi)
    exact ⟨hc.1, hc.2.1⟩
  · intro bi hi hbi hhi
    have hc := (hpt bi (by rw [hq.1]; exact hbi)).2.2 hi hhi
    rw [Nat.zero_add] at hc
    exact ⟨hc.1, hc.2⟩

/-- Entry `(i, j)` of a matrix product as an explicit sum. -/
theorem matmul_getD_sum {A B : Mat} {m kk n : ℕ} (hA : matShape A m kk)
    (hB : matShape B kk n) (hk : 0 < kk) {i j : ℕ} (hi : i < m) (hj : j < n) :
    ((matmul A B).getD i []).getD j 0 =
      ∑ t ∈ Finset.range kk, (A.getD i []).getD t 0 * (B.getD t []).getD j 0 := by
  rw [matmul_getD hA hB hk hi hj]
  have htr := tr_shape hk hB
  have hlenA : (A.getD i []).length = kk := gridShape_getD_length hA hi
  have hlenT : ((tr B).getD j []).length = kk := gridShape_getD_length htr hj
  rw [dot_eq_sum hlenA hlenT]
  refine Finset.sum_congr rfl (fun t ht => ?_)
  rw [tr_getD hB hj (Finset.mem_range.mp ht)]

theorem t3Shape_getD {X : T3} {b s d : ℕ} (hX : t3Shape X b s d) {bi : ℕ}
    (hbi : bi < b) : matShape (X.getD bi []) s d := by
  have hbX : bi < X.length := by rw [hX.1]; exact hbi
  rw [List.getD_eq_getElem _ _ hbX]
  exact hX.2 _ (by simp)

theorem t4Shape_len2 {X : T4} {b h s d : ℕ} (hX : t4Shape X b h s d) {bi : ℕ}
    (hbi : bi < b) : (X.getD bi []).length = h := by
  have hbX : bi < X.length := by rw [hX.1]; exact hbi
  rw [List.getD_eq_getElem _ _ hbX]
  exact (hX.2 _ (by simp)).1

theorem t4Shape_mat4 {X : T4} {b h s d : ℕ} (hX : t4Shape X b h s d)
    {bi hi : ℕ} (hbi : bi < b) (hhi : hi < h) : matShape (mat4 X bi hi) s d := by
  have hbX : bi < X.length := by rw [hX.1]; exact hbi
  have hB := hX.2 (X[bi]) (by simp)
  have hhX : hi < (X[bi]).length := by rw [hB.1]; exact hhi
  rw [mat4, List.getD_eq_getElem _ _ hbX, List.getD_eq_getElem _ _ hhX]
  exact hB.2 _ (by simp)

/-! ## Claims about construction and the empty encoder stack -/

/-- Claim C4: constructing `MultiHeadAttention` is rejected exactly when
`d_model` is not divisible by `num_heads`; the explicit example
(d_model, num_heads) = (10, 3) is rejected, and every divisible
configuration is accepted. -/
theorem claim_C4 (d_model num_heads : ℕ) (hpos : 0 < num_heads) (Wq : Mat)
    (bq : List ℝ) (Wk : Mat) (bk : List ℝ) (Wv : Mat) (bv : List ℝ) (Wo : Mat)
    (bo : List ℝ) (p : ℝ) :
    (¬ num_heads ∣ d_model →
      mhaInit d_model num_heads Wq bq Wk bk Wv bv Wo bo p = none) ∧
    (num_heads ∣ d_model →
      ∃ cfg, mhaInit d_model num_heads Wq bq Wk bk Wv bv Wo bo p = some cfg) := by
  constructor
  · intro hnd
    rw [mhaInit, if_neg]
    intro hmod
    exact hnd (Nat.dvd_iff_mod_eq_zero.mpr hmod)
  · intro hd
    exact ⟨⟨d_model, num_heads, Wq, bq, Wk, bk, Wv, bv, Wo, bo, p⟩,
      by rw [mhaInit, if_pos (Nat.dvd_iff_mod_eq_zero.mp hd)]⟩

/-- Witness for C4 at the concrete inputs from the claim: (10, 3) is
rejected and (10, 2) is accepted. -/
theorem claim_C4_witness :
    mhaInit 10 3 [] [] [] [] [] [] [] [] 0 = none ∧
      ∃ cfg, mhaInit 10 2 [] [] [] [] [] [] [] [] 0 = some cfg :=
  ⟨(claim_C4 10 3 (by decide) [] [] [] [] [] [] [] [] 0).1 (by decide),
   (claim_C4 10 2 (by decide) [] [] [] [] [] [] [] [] 0).2 (by decide)⟩

/-- Claim C10: the encoder stack with zero layers is the identity: it
returns its input unchanged, for every input tensor and mask. -/
theorem claim_C10 (training : Bool) (keeps : ℕ → EncKeep) (x : T3)
    (mask : Option (List (List Bool))) :
    encoderForward [] training keeps x mask = some x := by
  simp [encoderForward, encLayersForward]

/-! ## Claims about the scaled dot-product attention forward pass -/

/-- Claim C1: with no mask (in evaluation mode, where dropout is the
identity), the attention forward pass succeeds and each weight entry is the
softmax of the query/key dot products scaled by the square root of `d_k`,
while each output entry is the corresponding weighted combination of the
value array by the returned weights. -/
theorem claim_C1 (d_k : ℕ) (p : ℝ) (keep : ℕ → ℕ → ℕ → ℕ → Bool)
    {q k v : T4} {b nh s_q s_k d dv : ℕ} (hq : t4Shape q b nh s_q d)
    (hk : t4Shape k b nh s_k d) (hv : t4Shape v b nh s_k dv) (hd : 0 < d)
    (hsk : 0 < s_k) :
    ∃ out w, sdpaForward d_k false p keep q k v none = some (out, w) ∧
      (∀ bi hi i j, bi < b → hi < nh → i < s_q → j < s_k →
        entry4 w bi hi i j =
          Real.exp (dot (row4 q bi hi i) (row4 k bi hi j) / Real.sqrt (d_k : ℝ)) /
            ∑ j2 ∈ Finset.range s_k,
              Real.exp (dot (row4 q bi hi i) (row4 k bi hi j2) / Real.sqrt (d_k : ℝ))) ∧
      (∀ bi hi i f2, bi < b → hi < nh → i < s_q → f2 < dv →
        entry4 out bi hi i f2 =
          ∑ j ∈ Finset.range s_k, entry4 w bi hi i j * entry4 v bi hi j f2) := by
  rcases sdpaForward_eq d_k false p keep hq hk hv hd hsk none
      (fun m hm => by cases hm) with ⟨out, w, heq, _, _, _, hpt⟩
  refine ⟨out, w, heq, ?_, ?_⟩
  · intro bi hi i j hbi hhi hi2 hj
    have hc := (hpt bi hi hbi hhi).1
    have hmq := t4Shape_mat4 hq hbi hhi
    have hmk := t4Shape_mat4 hk hbi hhi
    show ((mat4 w bi hi).getD i []).getD j 0 = _
    rw [hc]
    simp only [maskRow]
    exact sdpaWeights_getD_eval hmq hmk hd hsk d_k p (keep bi hi) hi2 hj
  · intro bi hi i f2 hbi hhi hi2 hf
    have hc := hpt bi hi hbi hhi
    have hmq := t4Shape_mat4 hq hbi hhi
    have hmk := t4Shape_mat4 hk hbi hhi
    have hmv := t4Shape_mat4 hv hbi hhi
    have hw : matShape (mat4 w bi hi) s_q s_k := by
      rw [hc.1]
      exact sdpaWeights_shape hmq hmk hd hsk d_k false p (keep bi hi)
        (maskRow none bi) (fun mr hmr => by simp [maskRow] at hmr)
    show ((mat4 out bi hi).getD i []).getD f2 0 = _
    rw [hc.2]
    exact matmul_getD_sum hw hmv hsk hi2 hf

/-- Witness for C1 at a concrete one-element input. -/
theorem claim_C1_witness :
    ∃ out w, sdpaForward 1 false (1/10) (fun _ _ _ _ => true)
        [[[[(1:ℝ)]]]] [[[[(1:ℝ)]]]] [[[[(1:ℝ)]]]] none = some (out, w) ∧
      (∀ bi hi i j, bi < 1 → hi < 1 → i < 1 → j < 1 →
        entry4 w bi hi i j =
          Real.exp (dot (row4 [[[[(1:ℝ)]]]] bi hi i) (row4 [[[[(1:ℝ)]]]] bi hi j) /
              Real.sqrt ((1 : ℕ) : ℝ)) /
            ∑ j2 ∈ Finset.range 1,
              Real.exp (dot (row4 [[[[(1:ℝ)]]]] bi hi i) (row4 [[[[(1:ℝ)]]]] bi hi j2) /
                Real.sqrt ((1 : ℕ) : ℝ))) ∧
      (∀ bi hi i f2, bi < 1 → hi < 1 → i < 1 → f2 < 1 →
        entry4 out bi hi i f2 =
          ∑ j ∈ Finset.range 1,
            entry4 w bi hi i j * entry4 [[[[(1:ℝ)]]]] bi hi j f2) :=
  @claim_C1 1 (1/10) (fun _ _ _ _ => true)
    [[[[(1:ℝ)]]]] [[[[(1:ℝ)]]]] [[[[(1:ℝ)]]]] 1 1 1 1 1 1
    (by unfold t4Shape matShape; decide) (by unfold t4Shape matShape; decide)
    (by unfold t4Shape matShape; decide) (by decide) (by decide)

/-- Claim C9: the attention-weight array the forward pass returns is the
post-dropout weight array, and the returned output is exactly the matrix
product of that returned array with the value array, in every mode. -/
theorem claim_C9 (d_k : ℕ) (training : Bool) (p : ℝ)
    (keep : ℕ → ℕ → ℕ → ℕ → Bool) {q k v : T4} {b nh s_q s_k d dv : ℕ}
    (hq : t4Shape q b nh s_q d) (hk : t4Shape k b nh s_k d)
    (hv : t4Shape v b nh s_k dv) (hd : 0 < d) (hsk : 0 < s_k)
    (mask : Option (List (List Bool)))
    (hmask : ∀ m, mask = some m → ∀ bi, bi < b → (m.getD bi []).length = s_k) :
    ∃ out w, sdpaForward d_k training p keep q k v mask = some (out, w) ∧
      ∀ bi hi, bi < b → hi < nh →
        mat4 w bi hi = dropoutMat training p (keep bi hi)
          ((applyMask (maskRow mask bi) ((matmul (mat4 q bi hi) (tr (mat4 k bi hi))).map
            (fun r => r.map (fun x => x / Real.sqrt (d_k : ℝ))))).map softmaxRow) ∧
        mat4 out bi hi = matmul (mat4 w bi hi) (mat4 v bi hi) := by
  rcases sdpaForward_eq d_k training p keep hq hk hv hd hsk mask hmask with
    ⟨out, w, heq, _, _, _, hpt⟩
  exact ⟨out, w, heq, fun bi hi hbi hhi => (hpt bi hi hbi hhi).imp_left
    (fun h2 => by rw [h2, sdpaWeights])⟩

/-- Witness for C9 at a concrete one-element input in training mode. -/
theorem claim_C9_witness :
    ∃ out w, sdpaForward 1 true (1/10) (fun _ _ _ _ => true)
        [[[[(2:ℝ)]]]] [[[[(2:ℝ)]]]] [[[[(2:ℝ)]]]] none = some (out, w) ∧
      ∀ bi hi, bi < 1 → hi < 1 →
        mat4 w bi hi = dropoutMat true (1/10) ((fun _ _ _ _ => true) bi hi)
          ((applyMask (maskRow none bi)
            ((matmul (mat4 [[[[(2:ℝ)]]]] bi hi) (tr (mat4 [[[[(2:ℝ)]]]] bi hi))).map
              (fun r => r.map (fun x => x / Real.sqrt ((1 : ℕ) : ℝ))))).map softmaxRow) ∧
        mat4 out bi hi = matmul (mat4 w bi hi) (mat4 [[[[(2:ℝ)]]]] bi hi) :=
  @claim_C9 1 true (1/10) (fun _ _ _ _ => true)
    [[[[(2:ℝ)]]]] [[[[(2:ℝ)]]]] [[[[(2:ℝ)]]]] 1 1 1 1 1 1
    (by unfold t4Shape matShape; decide) (by unfold t4Shape matShape; decide)
    (by unfold t4Shape matShape; decide) (by decide) (by decide)
    none (fun m hm => by cases hm)

/-- Claim C2: when a mask is supplied, every masked-out key position (mask
entry equal to zero, i.e. `false`) carries exactly zero weight in the
returned attention-weight array, in every dropout mode. -/
theorem claim_C2 (d_k : ℕ) (training : Bool) (p : ℝ)
    (keep : ℕ → ℕ → ℕ → ℕ → Bool) {q k v : T4} {b nh s_q s_k d dv : ℕ}
    (hq : t4Shape q b nh s_q d) (hk : t4Shape k b nh s_k d)
    (hv : t4Shape v b nh s_k dv) (hd : 0 < d) (hsk : 0 < s_k)
    {m : List (List Bool)} (hm : ∀ bi, bi < b → (m.getD bi []).length = s_k) :
    ∃ out w, sdpaForward d_k training p keep q k v (some m) = some (out, w) ∧
      ∀ bi hi i j, bi < b → hi < nh → i < s_q → j < s_k →
        (m.getD bi []).getD j true = false → entry4 w bi hi i j = 0 := by
  rcases sdpaForward_eq d_k training p keep hq hk hv hd hsk (some m)
      (fun m2 hm2 => by cases hm2; exact hm) with ⟨out, w, heq, _, _, _, hpt⟩
  refine ⟨out, w, heq, ?_⟩
  intro bi hi i j hbi hhi hi2 hj hmaskbit
  have hc := (hpt bi hi hbi hhi).1
  have hmq := t4Shape_mat4 hq hbi hhi
  have hmk := t4Shape_mat4 hk hbi hhi
  show ((mat4 w bi hi).getD i []).getD j 0 = 0
  rw [hc]
  simp only [maskRow]
  exact sdpaWeights_masked_zero hmq hmk hd hsk d_k training p (keep bi hi)
    (hm bi hbi) hi2 hj hmaskbit

/-- Witness for C2: a two-key input whose mask zeroes out the second key
position. -/
theorem claim_C2_witness :
    ∃ out w, sdpaForward 1 true (1/10) (fun _ _ _ _ => true)
        [[[[(1:ℝ)]]]] [[[[(1:ℝ)], [(3:ℝ)]]]] [[[[(1:ℝ)], [(3:ℝ)]]]]
        (some [[true, false]]) = some (out, w) ∧
      ∀ bi hi i j, bi < 1 → hi < 1 → i < 1 → j < 2 →
        (([[true, false]].getD bi []).getD j true = false) →
          entry4 w bi hi i j = 0 :=
  @claim_C2 1 true (1/10) (fun _ _ _ _ => true)
    [[[[(1:ℝ)]]]] [[[[(1:ℝ)], [(3:ℝ)]]]] [[[[(1:ℝ)], [(3:ℝ)]]]] 1 1 1 2 1 1
    (by unfold t4Shape matShape; decide) (by unfold t4Shape matShape; decide)
    (by unfold t4Shape matShape; decide) (by decide) (by decide)
    [[true, false]] (by intro bi hbi; interval_cases bi <;> decide)

/-- Counterexample to C3 as stated: the weights array returned to the caller
is the post-dropout array, and in training mode (the notebook's default mode)
a dropped entry makes a row sum differ from 1.  At this concrete one-element
input with the entry dropped, the returned row sums to 0. -/
theorem claim_C3_counterexample :
    (sdpaForward 1 true (1/2) (fun _ _ _ _ => false)
        [[[[(1:ℝ)]]]] [[[[(1:ℝ)]]]] [[[[(1:ℝ)]]]] none).map
      (fun ow => (row4 ow.2 0 0 0).sum) = some 0 ∧ (0 : ℝ) ≠ 1 := by
  have hsh : t4Shape [[[[(1:ℝ)]]]] 1 1 1 1 := by unfold t4Shape matShape; decide
  rcases sdpaForward_eq 1 true (1/2) (fun _ _ _ _ => false) hsh hsh hsh
      (by decide) (by decide) none (fun m hm => by cases hm) with
    ⟨out, w, heq, hlo, hlw, hlen, hpt⟩
  rw [heq]
  have hc := (hpt 0 0 (by decide) (by decide)).1
  have hwsh : matShape (mat4 w 0 0) 1 1 := by
    rw [hc]
    exact sdpaWeights_shape (t4Shape_mat4 hsh (by decide) (by decide))
      (t4Shape_mat4 hsh (by decide) (by decide)) (by decide) (by decide)
      1 true (1/2) _ _ (fun mr hmr => by simp [maskRow] at hmr)
  have hz : ((mat4 w 0 0).getD 0 []).getD 0 0 = 0 := by
    rw [hc]
    simp only [maskRow]
    rw [show mat4 [[[[(1:ℝ)]]]] 0 0 = [[(1:ℝ)]] from rfl, sdpaWeights]
    have h1 : matShape [[(1:ℝ)]] 1 1 := by unfold matShape; decide
    have hW0 : matShape ((applyMask none ((matmul [[(1:ℝ)]] (tr [[(1:ℝ)]])).map
        (fun r => r.map (fun x => x / Real.sqrt ((1:ℕ) : ℝ))))).map softmaxRow) 1 1 := by
      have hS := scaled_scores_shape h1 h1 (by decide) (by decide)
        (Real.sqrt ((1:ℕ) : ℝ))
      have hmask := applyMask_shape hS none (fun mr hmr => by cases hmr)
      refine ⟨by rw [List.length_map, hmask.1], fun r hr => ?_⟩
      rcases List.mem_map.mp hr with ⟨row, hrow, rfl⟩
      rw [softmaxRow_length]
      exact hmask.2 row hrow
    rw [dropoutMat_getD (by rw [hW0.1]; decide)
      (by rw [gridShape_getD_length hW0 (by decide)]; decide)]
    simp
  have hrow : row4 w 0 0 0 = [0] := by
    have hlen1 : ((mat4 w 0 0).getD 0 []).length = 1 :=
      gridShape_getD_length hwsh (by decide)
    have h2 : row4 w 0 0 0 = (mat4 w 0 0).getD 0 [] := rfl
    rw [h2]
    refine list_eq_of_getD hlen1 (by decide) (fun t ht => ?_)
    interval_cases t
    rw [hz]
    rfl
  simp [hrow]

/-- Claim C3 amended: in evaluation mode (dropout the identity) and with no
mask, every row of the returned attention-weight array is non-negative and
sums to exactly 1 along the key axis. -/
theorem claim_C3_amended (d_k : ℕ) (p : ℝ) (keep : ℕ → ℕ → ℕ → ℕ → Bool)
    {q k v : T4} {b nh s_q s_k d dv : ℕ} (hq : t4Shape q b nh s_q d)
    (hk : t4Shape k b nh s_k d) (hv : t4Shape v b nh s_k dv) (hd : 0 < d)
    (hsk : 0 < s_k) :
    ∃ out w, sdpaForward d_k false p keep q k v none = some (out, w) ∧
      ∀ bi hi i, bi < b → hi < nh → i < s_q →
        (∀ x ∈ row4 w bi hi i, 0 ≤ x) ∧ (row4 w bi hi i).sum = 1 := by
  rcases sdpaForward_eq d_k false p keep hq hk hv hd hsk none
      (fun m hm => by cases hm) with ⟨out, w, heq, _, _, _, hpt⟩
  refine ⟨out, w, heq, ?_⟩
  intro bi hi i hbi hhi hi2
  have hc := (hpt bi hi hbi hhi).1
  have hmq := t4Shape_mat4 hq hbi hhi
  have hmk := t4Shape_mat4 hk hbi hhi
  have hr : row4 w bi hi i = (mat4 w bi hi).getD i [] := rfl
  rw [hr, hc]
  simp only [maskRow]
  exact sdpaWeights_row_sum_eval hmq hmk hd hsk d_k p (keep bi hi) hi2

theorem matmulChk_eq_none {A B : Mat} {r : List ℝ} (hr : r ∈ A)
    (hne : r.length ≠ B.length) : matmulChk A B = none := by
  rw [matmulChk, if_neg]
  intro hall
  rw [List.all_eq_true] at hall
  exact hne (by simpa using hall r hr)

theorem getD_zero_mem {A : Mat} (h : 0 < A.length) : A.getD 0 [] ∈ A := by
  rw [List.getD_eq_getElem _ _ h]
  exact List.getElem_mem h

/-- The attention forward pass on one slice raises inside the first
`torch.matmul` when the query and key feature dimensions differ. -/
theorem sdpaMat_none_of_featMismatch {qM kM vM : Mat} {s_q s_k dq d : ℕ}
    (hq : matShape qM s_q dq) (hk : matShape kM s_k d) (hsq : 0 < s_q)
    (hsk : 0 < s_k) (hne : dq ≠ d) (d_k : ℕ) (training : Bool) (p : ℝ)
    (keep : ℕ → ℕ → Bool) (mrow : Option (List Bool)) :
    sdpaMat d_k training p keep mrow qM kM vM = none := by
  have h0 : 0 < qM.length := by rw [hq.1]; exact hsq
  have htlen : (tr kM).length = d := by simp [tr, featDim_of_shape hsk hk]
  rw [sdpaMat, matmulChk_eq_none (getD_zero_mem h0)
    (by rw [gridShape_getD_length hq hsq, htlen]; exact hne)]

/-- The attention forward pass on one slice raises inside the second
`torch.matmul` when the key and value sequence lengths differ. -/
theorem sdpaMat_none_of_seqMismatch {qM kM vM : Mat} {s_q s_k s_v d dv : ℕ}
    (hq : matShape qM s_q d) (hk : matShape kM s_k d) (hv : matShape vM s_v dv)
    (hd : 0 < d) (hsq : 0 < s_q) (hsk : 0 < s_k) (hne : s_k ≠ s_v) (d_k : ℕ)
    (training : Bool) (p : ℝ) (keep : ℕ → ℕ → Bool) (mrow : Option (List Bool))
    (hm : ∀ mr, mrow = some mr → mr.length = s_k) :
    sdpaMat d_k training p keep mrow qM kM vM = none := by
  have h1 : matmulChk qM (tr kM) = some (matmul qM (tr kM)) :=
    matmulChk_eq_some hq (tr_shape hsk hk)
  have hw := sdpaWeights_shape hq hk hd hsk d_k training p keep mrow hm
  have h0 : 0 < (sdpaWeights d_k training p keep mrow qM kM).length := by
    rw [hw.1]; exact hsq
  have h2 : matmulChk (sdpaWeights d_k training p keep mrow qM kM) vM = none :=
    matmulChk_eq_none (getD_zero_mem h0)
      (by rw [gridShape_getD_length hw hsq, hv.1]; exact hne)
  rw [sdpaMat, h1]
  simp only [sdpaWeights] at h2 ⊢
  rw [h2]

/-- Claim C5: a call whose query/key feature dimensions mismatch, or whose
key/value sequence lengths mismatch, is rejected: the forward pass raises
(returns `none`) and produces no result. -/
theorem claim_C5 (d_k : ℕ) (training : Bool) (p : ℝ)
    (keep : ℕ → ℕ → ℕ → ℕ → Bool) {q k v : T4} {b nh s_q s_k s_v dq d dv : ℕ}
    (hq : t4Shape q b nh s_q dq) (hk : t4Shape k b nh s_k d)
    (hv : t4Shape v b nh s_v dv) (hb : 0 < b) (hnh : 0 < nh) (hsq : 0 < s_q)
    (hsk : 0 < s_k) (hd : 0 < d) (mask : Option (List (List Bool)))
    (hmask : ∀ m, mask = some m → ∀ bi, bi < b → (m.getD bi []).length = s_k)
    (hbad : dq ≠ d ∨ s_k ≠ s_v) :
    sdpaForward d_k training p keep q k v mask = none := by
  have hm0 : ∀ mr, maskRow mask 0 = some mr → mr.length = s_k := by
    intro mr hmr
    cases mask with
    | none => simp [maskRow] at hmr
    | some m =>
      simp only [maskRow, Option.some_inj] at hmr
      rw [← hmr]
      exact hmask m rfl 0 hb
  rcases q with _ | ⟨qB, qs⟩
  · exfalso; have h2 := hq.1; simp at h2; omega
  rcases k with _ | ⟨kB, ks⟩
  · exfalso; have h2 := hk.1; simp at h2; omega
  rcases v with _ | ⟨vB, vs⟩
  · exfalso; have h2 := hv.1; simp at h2; omega
  have hqB := hq.2 qB (by simp)
  have hkB := hk.2 kB (by simp)
  have hvB := hv.2 vB (by simp)
  rcases qB with _ | ⟨qM, qms⟩
  · exfalso; have h2 := hqB.1; simp at h2; omega
  rcases kB with _ | ⟨kM, kms⟩
  · exfalso; have h2 := hkB.1; simp at h2; omega
  rcases vB with _ | ⟨vM, vms⟩
  · exfalso; have h2 := hvB.1; simp at h2; omega
  have hqM := hqB.2 qM (by simp)
  have hkM := hkB.2 kM (by simp)
  have hvM := hvB.2 vM (by simp)
  have hnone : sdpaMat d_k training p (keep 0 0) (maskRow mask 0) qM kM vM = none := by
    by_cases hdq : dq = d
    · subst hdq
      have hsv : s_k ≠ s_v := hbad.resolve_left (fun hcon => hcon rfl)
      exact sdpaMat_none_of_seqMismatch hqM hkM hvM hd hsq hsk hsv d_k training p
        (keep 0 0) (maskRow mask 0) hm0
    · exact sdpaMat_none_of_featMismatch hqM hkM hsq hsk hdq d_k training p
        (keep 0 0) (maskRow mask 0)
  rw [sdpaForward, sdpaBatches, sdpaHeads, hnone]

/-- Witness for C5: a query with feature dimension 2 against keys with
feature dimension 1 is rejected. -/
theorem claim_C5_witness :
    sdpaForward 1 false (1/10) (fun _ _ _ _ => true)
      [[[[(1:ℝ), (2:ℝ)]]]] [[[[(1:ℝ)]]]] [[[[(1:ℝ)]]]] none = none :=
  @claim_C5 1 false (1/10) (fun _ _ _ _ => true)
    [[[[(1:ℝ), (2:ℝ)]]]] [[[[(1:ℝ)]]]] [[[[(1:ℝ)]]]] 1 1 1 1 1 2 1 1
    (by unfold t4Shape matShape; decide) (by unfold t4Shape matShape; decide)
    (by unfold t4Shape matShape; decide) (by decide) (by decide) (by decide)
    (by decide) (by decide) none (fun m hm => by cases hm) (by decide)

/-! ## Multi-head attention with a single head -/

theorem linearRow_length (W : Mat) (bias r : List ℝ) :
    (linearRow W bias r).length = min W.length bias.length := by
  simp [linearRow, List.length_zipWith]

theorem linear3_shape {W : Mat} {bias : List ℝ} {X : T3} {b s dout : ℕ}
    (hXb : X.length = b) (hXs : ∀ M ∈ X, M.length = s)
    (hW : W.length = dout) (hb : bias.length = dout) :
    t3Shape (linear3 W bias X) b s dout := by
  refine ⟨by simp [linear3, hXb], fun M hM => ?_⟩
  rcases List.mem_map.mp hM with ⟨N, hN, rfl⟩
  refine ⟨by simp [linearMat, hXs N hN], fun r hr => ?_⟩
  rcases List.mem_map.mp hr with ⟨row, _, rfl⟩
  simp [linearRow_length, hW, hb]

theorem splitHeadsMat_one {M : Mat} {s dm : ℕ} (hM : matShape M s dm) :
    splitHeadsMat 1 dm M = [M] := by
  have h1 : List.range 1 = [0] := rfl
  rw [splitHeadsMat, h1, List.map_cons, List.map_nil]
  congr 1
  have h2 : M.map (fun r => (r.drop (0 * dm)).take dm) = M.map id :=
    List.map_congr_left (fun r hr => by
      rw [Nat.zero_mul, List.drop_zero]
      exact List.take_of_length_le (le_of_eq (hM.2 r hr)))
  rw [h2, List.map_id]

theorem splitHeads_one {X : T3} {b s dm : ℕ} (hX : t3Shape X b s dm) :
    splitHeads 1 dm X = X.map (fun M => [M]) :=
  List.map_congr_left (fun M hM => splitHeadsMat_one (hX.2 M hM))

theorem wrap_shape {X : T3} {b s dm : ℕ} (hX : t3Shape X b s dm) :
    t4Shape (X.map (fun M => [M])) b 1 s dm := by
  refine ⟨by simp [hX.1], fun B hB => ?_⟩
  rcases List.mem_map.mp hB with ⟨M, hM, rfl⟩
  refine ⟨by simp, ?_⟩
  intro N hN
  rw [List.mem_singleton] at hN
  rw [hN]
  exact hX.2 M hM

theorem mergeHeads_one {o : T4} (hall : ∀ B ∈ o, B.length = 1) :
    mergeHeads o = o.map (fun hs => hs.getD 0 []) := by
  refine List.map_congr_left (fun B hB => ?_)
  rcases B with _ | ⟨H, rest⟩
  · exact absurd (hall [] hB) (by simp)
  · rcases rest with _ | ⟨H2, rest2⟩
    · rfl
    · exact absurd (hall (H :: H2 :: rest2) hB) (by simp)

/-- Claim C6: with a single head, `MultiHeadAttention.forward` coincides with
scaled dot-product attention composed with the input projections `W_q`,
`W_k`, `W_v` and the output projection `W_o`. -/
theorem claim_C6 (cfg : MHACfg) (training : Bool)
    (keep : ℕ → ℕ → ℕ → ℕ → Bool) {q k v : T3} {b s : ℕ}
    (hheads : cfg.num_heads = 1) (hq : t3Shape q b s cfg.d_model)
    (hk : t3Shape k b s cfg.d_model) (hv : t3Shape v b s cfg.d_model)
    (hWq : cfg.Wq.length = cfg.d_model) (hbq : cfg.bq.length = cfg.d_model)
    (hWk : cfg.Wk.length = cfg.d_model) (hbk : cfg.bk.length = cfg.d_model)
    (hWv : cfg.Wv.length = cfg.d_model) (hbv : cfg.bv.length = cfg.d_model)
    (hdm : 0 < cfg.d_model) (hs : 0 < s) (mask : Option (List (List Bool)))
    (hmask : ∀ m, mask = some m → ∀ bi, bi < b → (m.getD bi []).length = s) :
    mhaForward cfg training keep q k v mask =
      singleHeadAttn cfg.d_model training cfg.p keep cfg.Wq cfg.bq cfg.Wk cfg.bk
        cfg.Wv cfg.bv cfg.Wo cfg.bo q k v mask := by
  have hdk : cfg.dk = cfg.d_model := by rw [MHACfg.dk, hheads, Nat.div_one]
  have hq2 := linear3_shape hq.1 (fun M hM => (hq.2 M hM).1) hWq hbq
  have hk2 := linear3_shape hk.1 (fun M hM => (hk.2 M hM).1) hWk hbk
  have hv2 := linear3_shape hv.1 (fun M hM => (hv.2 M hM).1) hWv hbv
  rcases sdpaForward_eq cfg.d_model training cfg.p keep (wrap_shape hq2)
      (wrap_shape hk2) (wrap_shape hv2) hdm hs mask hmask with
    ⟨out, w, heq, hlo, hlw, hlen, hpt⟩
  have hall : ∀ B ∈ out, B.length = 1 := by
    intro B hB
    rcases List.mem_iff_getElem.mp hB with ⟨bi, hbi, rfl⟩
    have hbib : bi < b := by rw [← hlo]; exact hbi
    have h2 := (hlen bi hbib).1
    rwa [List.getD_eq_getElem _ _ hbi] at h2
  rw [mhaForward, singleHeadAttn, hdk, hheads, splitHeads_one hq2,
    splitHeads_one hk2, splitHeads_one hv2, heq]
  exact congrArg (fun z => some (linear3 cfg.Wo cfg.bo z, w)) (mergeHeads_one hall)

/-- Witness for C6 at a concrete single-head configuration. -/
theorem claim_C6_witness :
    mhaForward ⟨1, 1, [[(1:ℝ)]], [(0:ℝ)], [[(1:ℝ)]], [(0:ℝ)], [[(1:ℝ)]],
        [(0:ℝ)], [[(1:ℝ)]], [(0:ℝ)], 1/10⟩ false (fun _ _ _ _ => true)
      [[[(2:ℝ)]]] [[[(2:ℝ)]]] [[[(2:ℝ)]]] none =
    singleHeadAttn 1 false (1/10) (fun _ _ _ _ => true) [[(1:ℝ)]] [(0:ℝ)]
      [[(1:ℝ)]] [(0:ℝ)] [[(1:ℝ)]] [(0:ℝ)] [[(1:ℝ)]] [(0:ℝ)]
      [[[(2:ℝ)]]] [[[(2:ℝ)]]] [[[(2:ℝ)]]] none :=
  @claim_C6 ⟨1, 1, [[(1:ℝ)]], [(0:ℝ)], [[(1:ℝ)]], [(0:ℝ)], [[(1:ℝ)]],
      [(0:ℝ)], [[(1:ℝ)]], [(0:ℝ)], 1/10⟩ false (fun _ _ _ _ => true)
    [[[(2:ℝ)]]] [[[(2:ℝ)]]] [[[(2:ℝ)]]] 1 1 rfl
    (by unfold t3Shape matShape; decide) (by unfold t3Shape matShape; decide)
    (by unfold t3Shape matShape; decide) (by decide) (by decide) (by decide)
    (by decide) (by decide) (by decide) (by decide) (by decide)
    none (fun m hm => by cases hm)

/-! ## Shape preservation through the encoder layer -/

theorem t3Shape_of_getD {X : T3} {b s d : ℕ} (hlen : X.length = b)
    (hrow : ∀ bi, bi < b → (X.getD bi []).length = s)
    (hentry : ∀ bi i, bi < b → i < s → ((X.getD bi []).getD i []).length = d) :
    t3Shape X b s d := by
  refine ⟨hlen, fun M hM => ?_⟩
  rcases List.mem_iff_getElem.mp hM with ⟨bi, hbi, rfl⟩
  have hb2 : bi < b := by omega
  have hgd : X.getD bi [] = X[bi] := List.getD_eq_getElem X [] hbi
  refine ⟨by rw [← hgd]; exact hrow bi hb2, fun r hr => ?_⟩
  rcases List.mem_iff_getElem.mp hr with ⟨i, hi, rfl⟩
  have hi2 : i < s := by rw [← hgd] at hi; rw [← hrow bi hb2]; exact hi
  have h3 := hentry bi i hb2 hi2
  rwa [hgd, List.getD_eq_getElem _ [] hi] at h3

theorem splitHeads_shape {X : T3} {b s nh dk : ℕ}
    (hX : t3Shape X b s (nh * dk)) :
    t4Shape (splitHeads nh dk X) b nh s dk := by
  refine ⟨by simp [splitHeads, hX.1], fun B hB => ?_⟩
  rcases List.mem_map.mp hB with ⟨M, hM, rfl⟩
  have hMs := hX.2 M hM
  refine ⟨by simp [splitHeadsMat], fun H hH => ?_⟩
  rcases List.mem_map.mp hH with ⟨h2, hh2, rfl⟩
  have hh3 : h2 < nh := by
    rcases List.mem_range.mp hh2 with hlt
    exact hlt
  refine ⟨by simp [hMs.1], fun r hr => ?_⟩
  rcases List.mem_map.mp hr with ⟨row, hrow, rfl⟩
  rw [List.length_take, List.length_drop, hMs.2 row hrow]
  have : h2 * dk + dk ≤ nh * dk := by
    have h4 : h2 + 1 ≤ nh := hh3
    calc h2 * dk + dk = (h2 + 1) * dk := by ring
    _ ≤ nh * dk := Nat.mul_le_mul_right dk h4
  omega

theorem mergeHeadsMat_shape {s dk : ℕ} :
    ∀ (Hs : List Mat), Hs ≠ [] → (∀ H ∈ Hs, matShape H s dk) →
      matShape (mergeHeadsMat Hs) s (Hs.length * dk) := by
  intro Hs
  induction Hs with
  | nil => intro hne _; exact absurd rfl hne
  | cons H rest ih =>
    intro _ hall
    rcases rest with _ | ⟨H2, rest2⟩
    · have h1 := hall H (by simp)
      simpa [mergeHeadsMat, Nat.one_mul] using h1
    · have hrest := ih (by simp) (fun H3 hH3 => hall H3 (by simp [hH3]))
      have hH := hall H (by simp)
      have hmm : mergeHeadsMat (H :: H2 :: rest2) =
          List.zipWith (fun a b => a ++ b) H (mergeHeadsMat (H2 :: rest2)) := rfl
      rw [hmm, matShape_iff_gridShape]
      refine gridShape_of_getD ?_ ?_
      · rw [List.length_zipWith, hH.1, hrest.1]
        simp
      · intro i hi
        rw [getD_zipWith_in _ (by rw [hH.1]; exact hi)
          (by rw [hrest.1]; exact hi) [] [] []]
        rw [List.length_append, gridShape_getD_length hH hi,
          gridShape_getD_length hrest hi]
        simp [List.length_cons]
        ring

theorem mergeHeads_shape {Y : T4} {b nh s dk : ℕ} (hY : t4Shape Y b nh s dk)
    (hnh : 0 < nh) : t3Shape (mergeHeads Y) b s (nh * dk) := by
  refine ⟨by simp [mergeHeads, hY.1], fun M hM => ?_⟩
  rcases List.mem_map.mp hM with ⟨B, hB, rfl⟩
  have hBp := hY.2 B hB
  have h2 := mergeHeadsMat_shape B
    (by intro hcon; rw [hcon] at hBp; simp at hBp; omega) hBp.2
  rwa [hBp.1] at h2

theorem relu3_shape {X : T3} {b s d : ℕ} (hX : t3Shape X b s d) :
    t3Shape (relu3 X) b s d := by
  refine ⟨by simp [relu3, hX.1], fun M hM => ?_⟩
  rcases List.mem_map.mp hM with ⟨N, hN, rfl⟩
  refine ⟨by simp [(hX.2 N hN).1], fun r hr => ?_⟩
  rcases List.mem_map.mp hr with ⟨row, hrow, rfl⟩
  simp [reluRow, (hX.2 N hN).2 row hrow]

theorem layerNormRow_length (g bb : List ℝ) (eps : ℝ) (r : List ℝ) :
    (layerNormRow g bb eps r).length = min r.length (min g.length bb.length) := by
  simp [layerNormRow, List.length_zipWith, List.length_zip]

theorem layerNorm3_shape {X : T3} {b s d : ℕ} (hX : t3Shape X b s d)
    {g bb : List ℝ} (hg : g.length = d) (hbb : bb.length = d) (eps : ℝ) :
    t3Shape (layerNorm3 g bb eps X) b s d := by
  refine ⟨by simp [layerNorm3, hX.1], fun M hM => ?_⟩
  rcases List.mem_map.mp hM with ⟨N, hN, rfl⟩
  refine ⟨by simp [(hX.2 N hN).1], fun r hr => ?_⟩
  rcases List.mem_map.mp hr with ⟨row, hrow, rfl⟩
  rw [layerNormRow_length, (hX.2 N hN).2 row hrow, hg, hbb]
  simp

theorem dropout3_shape {X : T3} {b s d : ℕ} (hX : t3Shape X b s d)
    (training : Bool) (p : ℝ) (keep : ℕ → ℕ → ℕ → Bool) :
    t3Shape (dropout3 training p keep X) b s d := by
  cases training with
  | false => simpa [dropout3] using hX
  | true =>
    rw [dropout3, if_pos rfl]
    refine t3Shape_of_getD (by rw [length_idxMap, hX.1]) ?_ ?_
    · intro bi hbi
      have hbX : bi < X.length := by rw [hX.1]; exact hbi
      rw [getD_idxMap _ _ _ hbX [] [], length_idxMap]
      exact (t3Shape_getD hX hbi).1
    · intro bi i hbi hi
      have hbX : bi < X.length := by rw [hX.1]; exact hbi
      have hM := t3Shape_getD hX hbi
      have hiM : i < (X.getD bi []).length := by rw [hM.1]; exact hi
      rw [getD_idxMap _ _ _ hbX [] [], getD_idxMap _ _ _ hiM [] [], length_idxMap]
      exact gridShape_getD_length hM hi

theorem addT3_shape {X Y : T3} {b s d : ℕ} (hX : t3Shape X b s d)
    (hY : t3Shape Y b s d) : t3Shape (addT3 X Y) b s d := by
  refine t3Shape_of_getD (by rw [addT3, List.length_zipWith, hX.1, hY.1]; simp) ?_ ?_
  · intro bi hbi
    have hbX : bi < X.length := by rw [hX.1]; exact hbi
    have hbY : bi < Y.length := by rw [hY.1]; exact hbi
    rw [addT3, getD_zipWith_in _ hbX hbY [] [] [], List.length_zipWith,
      (t3Shape_getD hX hbi).1, (t3Shape_getD hY hbi).1]
    simp
  · intro bi i hbi hi
    have hbX : bi < X.length := by rw [hX.1]; exact hbi
    have hbY : bi < Y.length := by rw [hY.1]; exact hbi
    have hMX := t3Shape_getD hX hbi
    have hMY := t3Shape_getD hY hbi
    have hiX : i < (X.getD bi []).length := by rw [hMX.1]; exact hi
    have hiY : i < (Y.getD bi []).length := by rw [hMY.1]; exact hi
    rw [addT3, getD_zipWith_in _ hbX hbY [] [] [],
      getD_zipWith_in _ hiX hiY [] [] [], List.length_zipWith,
      gridShape_getD_length hMX hi, gridShape_getD_length hMY hi]
    simp

/-- Shape of `MultiHeadAttention.forward`: with well-formed parameters and a
divisible model dimension, the output keeps the (batch, seq, d_model) shape
of the query. -/
theorem mhaForward_shape (cfg : MHACfg) (training : Bool)
    (keep : ℕ → ℕ → ℕ → ℕ → Bool) {q k v : T3} {b s_q s_k : ℕ}
    (hq : t3Shape q b s_q cfg.d_model) (hk : t3Shape k b s_k cfg.d_model)
    (hv : t3Shape v b s_k cfg.d_model)
    (hWq : cfg.Wq.length = cfg.d_model) (hbq : cfg.bq.length = cfg.d_model)
    (hWk : cfg.Wk.length = cfg.d_model) (hbk : cfg.bk.length = cfg.d_model)
    (hWv : cfg.Wv.length = cfg.d_model) (hbv : cfg.bv.length = cfg.d_model)
    (hWo : cfg.Wo.length = cfg.d_model) (hbo : cfg.bo.length = cfg.d_model)
    (hdiv : cfg.d_model % cfg.num_heads = 0) (hnh : 0 < cfg.num_heads)
    (hdm : 0 < cfg.d_model) (hsk : 0 < s_k) (mask : Option (List (List Bool)))
    (hmask : ∀ m, mask = some m → ∀ bi, bi < b → (m.getD bi []).length = s_k) :
    ∃ y w, mhaForward cfg training keep q k v mask = some (y, w) ∧
      t3Shape y b s_q cfg.d_model := by
  have hmul : cfg.num_heads * cfg.dk = cfg.d_model :=
    Nat.mul_div_cancel' (Nat.dvd_of_mod_eq_zero hdiv)
  have hdkpos : 0 < cfg.dk := by
    rcases Nat.eq_zero_or_pos cfg.dk with h0 | h1
    · exfalso; rw [h0, Nat.mul_zero] at hmul; omega
    · exact h1
  have hq2 := linear3_shape hq.1 (fun M hM => (hq.2 M hM).1) hWq hbq
  have hk2 := linear3_shape hk.1 (fun M hM => (hk.2 M hM).1) hWk hbk
  have hv2 := linear3_shape hv.1 (fun M hM => (hv.2 M hM).1) hWv hbv
  rw [← hmul] at hq2 hk2 hv2
  have hq3 := splitHeads_shape hq2
  have hk3 := splitHeads_shape hk2
  have hv3 := splitHeads_shape hv2
  rcases sdpaForward_eq cfg.dk training cfg.p keep hq3 hk3 hv3 hdkpos hsk mask
      hmask with ⟨out, w, heq, hlo, hlw, hlen, hpt⟩
  have hout : t4Shape out b cfg.num_heads s_q cfg.dk := by
    refine t4Shape_of_getD hlo (fun bi hbi => (hlen bi hbi).1) ?_
    intro bi hi hbi hhi
    have hc := hpt bi hi hbi hhi
    have hmq := t4Shape_mat4 hq3 hbi hhi
    have hmk := t4Shape_mat4 hk3 hbi hhi
    have hmv := t4Shape_mat4 hv3 hbi hhi
    have hwsh : matShape (mat4 w bi hi) s_q s_k := by
      rw [hc.1]
      refine sdpaWeights_shape hmq hmk hdkpos hsk cfg.dk training cfg.p
        (keep bi hi) (maskRow mask bi) ?_
      intro mr hmr
      cases mask with
      | none => simp [maskRow] at hmr
      | some m =>
        simp only [maskRow, Option.some_inj] at hmr
        rw [← hmr]
        exact hmask m rfl bi hbi
    rw [hc.2]
    exact matmul_shape hwsh hmv hsk
  have hmerged := mergeHeads_shape hout hnh
  rw [hmul] at hmerged
  refine ⟨linear3 cfg.Wo cfg.bo (mergeHeads out), w, ?_, ?_⟩
  · rw [mhaForward, heq]
  · exact linear3_shape hmerged.1 (fun M hM => (hmerged.2 M hM).1) hWo hbo

/-- Shape of `EncoderLayer.forward`: the layer succeeds on a well-formed
configuration and preserves the input shape exactly. -/
theorem encLayer_shape (cfg : EncCfg) (training : Bool) (ks : EncKeep)
    {x : T3} {b s d_ff : ℕ} (hx : t3Shape x b s cfg.mha.d_model)
    (hWq : cfg.mha.Wq.length = cfg.mha.d_model)
    (hbq : cfg.mha.bq.length = cfg.mha.d_model)
    (hWk : cfg.mha.Wk.length = cfg.mha.d_model)
    (hbk : cfg.mha.bk.length = cfg.mha.d_model)
    (hWv : cfg.mha.Wv.length = cfg.mha.d_model)
    (hbv : cfg.mha.bv.length = cfg.mha.d_model)
    (hWo : cfg.mha.Wo.length = cfg.mha.d_model)
    (hbo : cfg.mha.bo.length = cfg.mha.d_model)
    (hW1 : cfg.W1.length = d_ff) (hb1 : cfg.b1.length = d_ff)
    (hW2 : cfg.W2.length = cfg.mha.d_model)
    (hb2 : cfg.b2.length = cfg.mha.d_model)
    (hg1 : cfg.g1.length = cfg.mha.d_model)
    (hbeta1 : cfg.beta1.length = cfg.mha.d_model)
    (hg2 : cfg.g2.length = cfg.mha.d_model)
    (hbeta2 : cfg.beta2.length = cfg.mha.d_model)
    (hdiv : cfg.mha.d_model % cfg.mha.num_heads = 0)
    (hnh : 0 < cfg.mha.num_heads) (hdm : 0 < cfg.mha.d_model) (hs : 0 < s)
    (mask : Option (List (List Bool)))
    (hmask : ∀ m, mask = some m → ∀ bi, bi < b → (m.getD bi []).length = s) :
    ∃ y, encLayerForward cfg training ks x mask = some y ∧
      t3Shape y b s cfg.mha.d_model := by
  rcases mhaForward_shape cfg.mha training ks.ka hx hx hx hWq hbq hWk hbk hWv
      hbv hWo hbo hdiv hnh hdm hs mask hmask with ⟨att, w, heq, hatt⟩
  have hx1 : t3Shape (layerNorm3 cfg.g1 cfg.beta1 cfg.eps
      (addT3 x (dropout3 training cfg.p ks.k1 att))) b s cfg.mha.d_model :=
    layerNorm3_shape (addT3_shape hx (dropout3_shape hatt training cfg.p ks.k1))
      hg1 hbeta1 cfg.eps
  have hff : t3Shape (linear3 cfg.W2 cfg.b2 (relu3 (linear3 cfg.W1 cfg.b1
      (layerNorm3 cfg.g1 cfg.beta1 cfg.eps
        (addT3 x (dropout3 training cfg.p ks.k1 att)))))) b s cfg.mha.d_model := by
    have h1 := linear3_shape hx1.1 (fun M hM => (hx1.2 M hM).1) hW1 hb1
    have h2 := relu3_shape h1
    exact linear3_shape h2.1 (fun M hM => (h2.2 M hM).1) hW2 hb2
  refine ⟨_, ?_, layerNorm3_shape (addT3_shape hx1 (dropout3_shape hff training
    cfg.p ks.k2)) hg2 hbeta2 cfg.eps⟩
  rw [encLayerForward, heq]

/-- Claim C7: on any well-formed configuration, `EncoderLayer.forward`
succeeds and its output has exactly the shape of its input. -/
theorem claim_C7 (cfg : EncCfg) (training : Bool) (ks : EncKeep)
    {x : T3} {b s d_ff : ℕ} (hx : t3Shape x b s cfg.mha.d_model)
    (hWq : cfg.mha.Wq.length = cfg.mha.d_model)
    (hbq : cfg.mha.bq.length = cfg.mha.d_model)
    (hWk : cfg.mha.Wk.length = cfg.mha.d_model)
    (hbk : cfg.mha.bk.length = cfg.mha.d_model)
    (hWv : cfg.mha.Wv.length = cfg.mha.d_model)
    (hbv : cfg.mha.bv.length = cfg.mha.d_model)
    (hWo : cfg.mha.Wo.length = cfg.mha.d_model)
    (hbo : cfg.mha.bo.length = cfg.mha.d_model)
    (hW1 : cfg.W1.length = d_ff) (hb1 : cfg.b1.length = d_ff)
    (hW2 : cfg.W2.length = cfg.mha.d_model)
    (hb2 : cfg.b2.length = cfg.mha.d_model)
    (hg1 : cfg.g1.length = cfg.mha.d_model)
    (hbeta1 : cfg.beta1.length = cfg.mha.d_model)
    (hg2 : cfg.g2.length = cfg.mha.d_model)
    (hbeta2 : cfg.beta2.length = cfg.mha.d_model)
    (hdiv : cfg.mha.d_model % cfg.mha.num_heads = 0)
    (hnh : 0 < cfg.mha.num_heads) (hdm : 0 < cfg.mha.d_model) (hs : 0 < s)
    (mask : Option (List (List Bool)))
    (hmask : ∀ m, mask = some m → ∀ bi, bi < b → (m.getD bi []).length = s) :
    ∃ y, encLayerForward cfg training ks x mask = some y ∧
      t3Shape y b s cfg.mha.d_model :=
  encLayer_shape cfg training ks hx hWq hbq hWk hbk hWv hbv hWo hbo hW1 hb1
    hW2 hb2 hg1 hbeta1 hg2 hbeta2 hdiv hnh hdm hs mask hmask

/-- Witness for C7 at a concrete one-element configuration. -/
theorem claim_C7_witness :
    ∃ y, encLayerForward
        ⟨⟨1, 1, [[(0:ℝ)]], [(0:ℝ)], [[(0:ℝ)]], [(0:ℝ)], [[(0:ℝ)]], [(0:ℝ)],
          [[(0:ℝ)]], [(0:ℝ)], 1/10⟩, [[(0:ℝ)]], [(0:ℝ)], [[(0:ℝ)]], [(0:ℝ)],
          [(1:ℝ)], [(0:ℝ)], [(1:ℝ)], [(0:ℝ)], 1/100000, 1/10⟩
        false ⟨fun _ _ _ _ => true, fun _ _ _ => true, fun _ _ _ => true⟩
        [[[(2:ℝ)]]] none = some y ∧
      t3Shape y 1 1 (⟨⟨1, 1, [[(0:ℝ)]], [(0:ℝ)], [[(0:ℝ)]], [(0:ℝ)], [[(0:ℝ)]],
          [(0:ℝ)], [[(0:ℝ)]], [(0:ℝ)], 1/10⟩, [[(0:ℝ)]], [(0:ℝ)], [[(0:ℝ)]],
          [(0:ℝ)], [(1:ℝ)], [(0:ℝ)], [(1:ℝ)], [(0:ℝ)], 1/100000,
          1/10⟩ : EncCfg).mha.d_model :=
  @claim_C7 ⟨⟨1, 1, [[(0:ℝ)]], [(0:ℝ)], [[(0:ℝ)]], [(0:ℝ)], [[(0:ℝ)]], [(0:ℝ)],
      [[(0:ℝ)]], [(0:ℝ)], 1/10⟩, [[(0:ℝ)]], [(0:ℝ)], [[(0:ℝ)]], [(0:ℝ)],
      [(1:ℝ)], [(0:ℝ)], [(1:ℝ)], [(0:ℝ)], 1/100000, 1/10⟩
    false ⟨fun _ _ _ _ => true, fun _ _ _ => true, fun _ _ _ => true⟩
    [[[(2:ℝ)]]] 1 1 1
    (by unfold t3Shape matShape; decide) (by decide) (by decide) (by decide)
    (by decide) (by decide) (by decide) (by decide) (by decide) (by decide)
    (by decide) (by decide) (by decide) (by decide) (by decide) (by decide)
    (by decide) (by decide) (by decide) (by decide) (by decide)
    none (fun m hm => by cases hm)

/-- Claim C8: with d_model = 10, one head, batch 1 and sequence length 10,
the one-layer encoder stack produces output of shape (1, 10, 10), and the
classifier head with 2 classes applies its linear projection at every
position independently, producing output of shape (1, 10, 2). -/
theorem claim_C8 (L : EncCfg) (training : Bool) (keeps : ℕ → EncKeep)
    {x : T3} {d_ff : ℕ} (Wc : Mat) (bc : List ℝ)
    (hdm : L.mha.d_model = 10) (hnh : L.mha.num_heads = 1)
    (hx : t3Shape x 1 10 10)
    (hWq : L.mha.Wq.length = 10) (hbq : L.mha.bq.length = 10)
    (hWk : L.mha.Wk.length = 10) (hbk : L.mha.bk.length = 10)
    (hWv : L.mha.Wv.length = 10) (hbv : L.mha.bv.length = 10)
    (hWo : L.mha.Wo.length = 10) (hbo : L.mha.bo.length = 10)
    (hW1 : L.W1.length = d_ff) (hb1 : L.b1.length = d_ff)
    (hW2 : L.W2.length = 10) (hb2 : L.b2.length = 10)
    (hg1 : L.g1.length = 10) (hbeta1 : L.beta1.length = 10)
    (hg2 : L.g2.length = 10) (hbeta2 : L.beta2.length = 10)
    (hWc : Wc.length = 2) (hbc : bc.length = 2)
    (mask : Option (List (List Bool)))
    (hmask : ∀ m, mask = some m → ∀ bi, bi < 1 → (m.getD bi []).length = 10) :
    ∃ y, encoderForward [L] training keeps x mask = some y ∧
      t3Shape y 1 10 10 ∧
      classifierForward ⟨[L], Wc, bc⟩ training keeps x mask =
        some (linear3 Wc bc y) ∧
      t3Shape (linear3 Wc bc y) 1 10 2 ∧
      ∀ bi i, bi < 1 → i < 10 →
        ((linear3 Wc bc y).getD bi []).getD i [] =
          linearRow Wc bc ((y.getD bi []).getD i []) := by
  rcases encLayer_shape L training (keeps 0) (x := x) (b := 1) (s := 10)
      (by rw [hdm]; exact hx)
      (by rw [hdm]; exact hWq) (by rw [hdm]; exact hbq)
      (by rw [hdm]; exact hWk) (by rw [hdm]; exact hbk)
      (by rw [hdm]; exact hWv) (by rw [hdm]; exact hbv)
      (by rw [hdm]; exact hWo) (by rw [hdm]; exact hbo)
      hW1 hb1
      (by rw [hdm]; exact hW2) (by rw [hdm]; exact hb2)
      (by rw [hdm]; exact hg1) (by rw [hdm]; exact hbeta1)
      (by rw [hdm]; exact hg2) (by rw [hdm]; exact hbeta2)
      (by rw [hdm, hnh]) (by rw [hnh]; decide) (by rw [hdm]; decide)
      (by decide) mask hmask with ⟨y, heqL, hy⟩
  rw [hdm] at hy
  have henc : encoderForward [L] training keeps x mask = some y := by
    rw [encoderForward, encLayersForward, heqL]
    simp [encLayersForward]
  have hz := linear3_shape hy.1 (fun M hM => (hy.2 M hM).1) hWc hbc
  refine ⟨y, henc, hy, ?_, hz, ?_⟩
  · rw [classifierForward, henc]
  · intro bi i hbi hi
    have hby : bi < y.length := by rw [hy.1]; exact hbi
    have hMy := t3Shape_getD hy hbi
    have hiy : i < (y.getD bi []).length := by rw [hMy.1]; exact hi
    rw [linear3, getD_map_in _ _ hby [] [], linearMat, getD_map_in _ _ hiy [] []]

/-- Witness for C8 on the all-zero 10-dimensional configuration. -/
theorem claim_C8_witness :
    ∃ y, encoderForward [(⟨⟨10, 1, List.replicate 10 (List.replicate 10 (0:ℝ)),
        List.replicate 10 (0:ℝ), List.replicate 10 (List.replicate 10 (0:ℝ)),
        List.replicate 10 (0:ℝ), List.replicate 10 (List.replicate 10 (0:ℝ)),
        List.replicate 10 (0:ℝ), List.replicate 10 (List.replicate 10 (0:ℝ)),
        List.replicate 10 (0:ℝ), 1/10⟩,
        List.replicate 10 (List.replicate 10 (0:ℝ)), List.replicate 10 (0:ℝ),
        List.replicate 10 (List.replicate 10 (0:ℝ)), List.replicate 10 (0:ℝ),
        List.replicate 10 (1:ℝ), List.replicate 10 (0:ℝ),
        List.replicate 10 (1:ℝ), List.replicate 10 (0:ℝ), 1/100000, 1/10⟩ :
          EncCfg)]
        false (fun _ => ⟨fun _ _ _ _ => true, fun _ _ _ => true, fun _ _ _ => true⟩)
        [List.replicate 10 (List.replicate 10 (0:ℝ))] none = some y ∧
      t3Shape y 1 10 10 ∧
      classifierForward ⟨[(⟨⟨10, 1, List.replicate 10 (List.replicate 10 (0:ℝ)),
        List.replicate 10 (0:ℝ), List.replicate 10 (List.replicate 10 (0:ℝ)),
        List.replicate 10 (0:ℝ), List.replicate 10 (List.replicate 10 (0:ℝ)),
        List.replicate 10 (0:ℝ), List.replicate 10 (List.replicate 10 (0:ℝ)),
        List.replicate 10 (0:ℝ), 1/10⟩,
        List.replicate 10 (List.replicate 10 (0:ℝ)), List.replicate 10 (0:ℝ),
        List.replicate 10 (List.replicate 10 (0:ℝ)), List.replicate 10 (0:ℝ),
        List.replicate 10 (1:ℝ), List.replicate 10 (0:ℝ),
        List.replicate 10 (1:ℝ), List.replicate 10 (0:ℝ), 1/100000, 1/10⟩ :
          EncCfg)], List.replicate 2 (List.replicate 10 (0:ℝ)),
        List.replicate 2 (0:ℝ)⟩
        false (fun _ => ⟨fun _ _ _ _ => true, fun _ _ _ => true, fun _ _ _ => true⟩)
        [List.replicate 10 (List.replicate 10 (0:ℝ))] none =
        some (linear3 (List.replicate 2 (List.replicate 10 (0:ℝ)))
          (List.replicate 2 (0:ℝ)) y) ∧
      t3Shape (linear3 (List.replicate 2 (List.replicate 10 (0:ℝ)))
        (List.replicate 2 (0:ℝ)) y) 1 10 2 ∧
      ∀ bi i, bi < 1 → i < 10 →
        ((linear3 (List.replicate 2 (List.replicate 10 (0:ℝ)))
            (List.replicate 2 (0:ℝ)) y).getD bi []).getD i [] =
          linearRow (List.replicate 2 (List.replicate 10 (0:ℝ)))
            (List.replicate 2 (0:ℝ)) ((y.getD bi []).getD i []) :=
  @claim_C8 ⟨⟨10, 1, List.replicate 10 (List.replicate 10 (0:ℝ)),
      List.replicate 10 (0:ℝ), List.replicate 10 (List.replicate 10 (0:ℝ)),
      List.replicate 10 (0:ℝ), List.replicate 10 (List.replicate 10 (0:ℝ)),
      List.replicate 10 (0:ℝ), List.replicate 10 (List.replicate 10 (0:ℝ)),
      List.replicate 10 (0:ℝ), 1/10⟩,
      List.replicate 10 (List.replicate 10 (0:ℝ)), List.replicate 10 (0:ℝ),
      List.replicate 10 (List.replicate 10 (0:ℝ)), List.replicate 10 (0:ℝ),
      List.replicate 10 (1:ℝ), List.replicate 10 (0:ℝ),
      List.replicate 10 (1:ℝ), List.replicate 10 (0:ℝ), 1/100000, 1/10⟩
    false (fun _ => ⟨fun _ _ _ _ => true, fun _ _ _ => true, fun _ _ _ => true⟩)
    [List.replicate 10 (List.replicate 10 (0:ℝ))] 10
    (List.replicate 2 (List.replicate 10 (0:ℝ))) (List.replicate 2 (0:ℝ))
    (by decide) (by decide) (by unfold t3Shape matShape; decide)
    (by decide) (by decide) (by decide) (by decide) (by decide) (by decide)
    (by decide) (by decide) (by decide) (by decide) (by decide) (by decide)
    (by decide) (by decide) (by decide) (by decide) (by decide) (by decide)
    none (fun m hm => by cases hm)

/-- Witness for the amended C3 at a concrete one-element input. -/
theorem claim_C3_amended_witness :
    ∃ out w, sdpaForward 1 false (1/10) (fun _ _ _ _ => true)
        [[[[(5:ℝ)]]]] [[[[(5:ℝ)]]]] [[[[(5:ℝ)]]]] none = some (out, w) ∧
      ∀ bi hi i, bi < 1 → hi < 1 → i < 1 →
        (∀ x ∈ row4 w bi hi i, 0 ≤ x) ∧ (row4 w bi hi i).sum = 1 :=
  @claim_C3_amended 1 (1/10) (fun _ _ _ _ => true)
    [[[[(5:ℝ)]]]] [[[[(5:ℝ)]]]] [[[[(5:ℝ)]]]] 1 1 1 1 1 1
    (by unfold t4Shape matShape; decide) (by unfold t4Shape matShape; decide)
    (by unfold t4Shape matShape; decide) (by decide) (by decide)

end Transformers
